import Mathlib

/-!
Verification of the generation-and-validation orchestrator of the
pharma content generator (the `/api/ai/generate` route and its helpers).

The JavaScript/TypeScript source is shallowly embedded: pure helper
functions become Lean functions over `String` / `List Char` / `ℤ` / `ℚ`;
network calls and other external effects are passed in as explicit
oracle values (the outcome the external world produced), while every
branch, guard and assignment of the route itself is translated from the
source. JavaScript strings are modelled as Lean strings; the white-space
class and case folding are modelled on their ASCII portion, which covers
every character the route's patterns and the claims exercise.
-/

namespace PharmaGen

/-- ASCII portion of the JavaScript white-space class `\s` (as used by
`String.prototype.trim` and regex `\s`): space, tab, LF, CR, VT, FF. -/
def jsWs (c : Char) : Bool :=
  c = ' ' || c = '\t' || c = '\n' || c = '\r' || c = Char.ofNat 11 || c = Char.ofNat 12

/-- `String.prototype.toLowerCase`, ASCII case folding. -/
def lowerChars (cs : List Char) : List Char := cs.map Char.toLower

/-- `String.prototype.toLowerCase` on a Lean string. -/
def lowerStr (s : String) : String := ⟨lowerChars s.data⟩

/-- `String.prototype.trim` on a character list. -/
def trimChars (cs : List Char) : List Char :=
  ((cs.dropWhile jsWs).reverse.dropWhile jsWs).reverse

/-- `String.prototype.trim`. -/
def jsTrim (s : String) : String := ⟨trimChars s.data⟩

/-- Does the second list start with the first (character-exact)? -/
def charsStartWith : List Char → List Char → Bool
  | [], _ => true
  | _ :: _, [] => false
  | p :: ps, c :: cs => p = c && charsStartWith ps cs

/-- Substring containment on character lists (`String.prototype.includes`). -/
def containsChars (needle : List Char) : List Char → Bool
  | [] => charsStartWith needle []
  | c :: cs => charsStartWith needle (c :: cs) || containsChars needle cs

/-- `hay.includes(needle)` for Lean strings. -/
def includesStr (hay needle : String) : Bool := containsChars needle.data hay.data

/-- `candidate.startsWith(p)` for Lean strings. -/
def startsWithStr (s p : String) : Bool := charsStartWith p.data s.data

/-- `function clamp(n, min, max) { return Math.max(min, Math.min(max, n)) }` -/
def clamp (n lo hi : ℤ) : ℤ := max lo (min hi n)

/-- `clamp` at rational type, used for agent confidences. -/
def clampQ (n lo hi : ℚ) : ℚ := max lo (min hi n)

/-! ## Validation swarm (`validation_swarm`, `normalizeAgentResult`) -/

/-- `ValidationAgentResult.status`: `'pass' | 'fail'`. -/
inductive AgentStatus where
  | pass
  | fail
deriving DecidableEq

/-- `type ValidationAgentResult = { status; issues; confidence }`. -/
structure ValidationAgentResult where
  status : AgentStatus
  issues : List String
  confidence : ℚ
deriving DecidableEq

/-- The JSON payload of one agent call, abstracted at the JavaScript
coercion boundary of `normalizeAgentResult`:
`statusIsPass` is `raw.status === 'pass'`; `issues` is
`raw.issues.map(String)` when `raw.issues` is an array and `[]`
otherwise; `confidenceNum` is the `Number(...)`-coerced confidence,
`none` when that coercion yields `NaN`. -/
structure AgentRawJson where
  statusIsPass : Bool
  issues : List String
  confidenceNum : Option ℚ
deriving DecidableEq

/-- `normalizeAgentResult(raw, fallbackIssue)`; `raw = none` models a parsed
value that is not a record. -/
def normalizeAgentResult (raw : Option AgentRawJson) (fallbackIssue : String) :
    ValidationAgentResult :=
  match raw with
  | none => ⟨.fail, [fallbackIssue], 0⟩
  | some r =>
    ⟨if r.statusIsPass then .pass else .fail,
     (r.issues.filter (fun s => jsTrim s ≠ "")).take 25,
     match r.confidenceNum with
     | some q => clampQ q 0 1
     | none => 0⟩

/-- The outcome of one `callOpenRouterJson` agent call: `ok` with the
`safeJsonParse`d payload and raw text, or `err` with the failure reason
(HTTP error, `invalid_json`, `timeout`, or an exception message). -/
inductive AgentCallOutcome where
  | ok (parsed : Option AgentRawJson) (rawText : String)
  | err (reason : String)
deriving DecidableEq

/-- `citationRes.ok ? normalizeAgentResult(...) : { status: 'fail', issues:
[prefix + reason], confidence: 0 }` — shared shape of the four parse steps. -/
def parseAgentOutcome (o : AgentCallOutcome) (fallbackIssue tagPrefix : String) :
    ValidationAgentResult :=
  match o with
  | .ok parsed _ => normalizeAgentResult parsed fallbackIssue
  | .err reason => ⟨.fail, [tagPrefix ++ reason], 0⟩

/-- The synthesized recency payload used when the recency agent is not
applicable: `{ status: 'pass', issues: ['skipped_non_news_mode'], confidence: 1 }`. -/
def skippedRecencyRaw : AgentRawJson := ⟨true, ["skipped_non_news_mode"], some 1⟩

/-- The arguments of `validation_swarm` that its outputs depend on. -/
structure SwarmArgs where
  mode : String
  internetFallbackUsed : Bool
deriving DecidableEq

/-- `args.mode === 'news' || args.internetFallbackUsed` — the guard deciding
whether the recency agent runs and whether its penalty applies. -/
def recencyApplicable (a : SwarmArgs) : Bool :=
  a.mode == "news" || a.internetFallbackUsed

/-- The four agent-call outcomes of one swarm run (the recency outcome is
consulted only when `recencyApplicable`). -/
structure SwarmCalls where
  citation : AgentCallOutcome
  recency : AgentCallOutcome
  factCheck : AgentCallOutcome
  tone : AgentCallOutcome
deriving DecidableEq

/-- `type ValidationSwarmResults`. -/
structure ValidationSwarmResults where
  citation : ValidationAgentResult
  recency : ValidationAgentResult
  fact_check : ValidationAgentResult
  tone : ValidationAgentResult
deriving DecidableEq

/-- One row of `agentInserts` (the audit rows; the `details` JSON blob is
not modelled, its fields are copies of the parsed result plus raw text). -/
structure AgentInsert where
  agent_name : String
  status : AgentStatus
  confidence : ℚ
deriving DecidableEq

/-- `Number(x.toFixed(2))`: round to two decimals, ties away from zero
upward (ECMAScript `toFixed` picks the larger candidate on ties). -/
def roundFix2 (q : ℚ) : ℚ := (⌊q * 100 + 1/2⌋ : ℚ) / 100

/-- The value of one `validation_swarm` run. -/
structure SwarmOutput where
  results : ValidationSwarmResults
  trustScore : ℤ
  warnings : List String
  agentInserts : List AgentInsert
deriving DecidableEq

/-- `validation_swarm` (scoring part): parses the four agent outcomes,
computes the penalties and the clamped trust score, the review warning and
the audit rows. `trustThreshold` is `env.trustThreshold`. -/
def validation_swarm (a : SwarmArgs) (trustThreshold : ℤ) (calls : SwarmCalls) :
    SwarmOutput :=
  let citationParsed := parseAgentOutcome calls.citation "citation_agent_failed" "citation_agent_"
  let recencyParsed :=
    if recencyApplicable a then
      parseAgentOutcome calls.recency "recency_agent_failed" "recency_agent_"
    else normalizeAgentResult (some skippedRecencyRaw) "recency_skipped"
  let factParsed := parseAgentOutcome calls.factCheck "fact_check_agent_failed" "fact_check_agent_"
  let toneParsed := parseAgentOutcome calls.tone "tone_agent_failed" "tone_agent_"
  let pCitation : ℤ := if citationParsed.status = .fail then 25 else 0
  let pRecency : ℤ :=
    if recencyApplicable a && decide (recencyParsed.status = .fail) then 20 else 0
  let pFact : ℤ := if factParsed.status = .fail then 40 else 0
  let pTone : ℤ := if toneParsed.status = .fail then 15 else 0
  let trustScore := clamp (100 - pCitation - pRecency - pFact - pTone) 0 100
  let warnings :=
    if trustScore < trustThreshold then ["This content requires manual review."] else []
  { results := ⟨citationParsed, recencyParsed, factParsed, toneParsed⟩
    trustScore := trustScore
    warnings := warnings
    agentInserts :=
      [⟨"citation", citationParsed.status, roundFix2 citationParsed.confidence⟩,
       ⟨"recency", recencyParsed.status, roundFix2 recencyParsed.confidence⟩,
       ⟨"fact_check", factParsed.status, roundFix2 factParsed.confidence⟩,
       ⟨"tone", toneParsed.status, roundFix2 toneParsed.confidence⟩] }

/-- The penalty table exactly as the specification words it: citation fail
−25, recency fail −20 (only if applicable), fact_check fail −40, tone
fail −15. -/
def specPenaltySum (applicable : Bool) (citation recency fact tone : AgentStatus) : ℤ :=
  (if citation = .fail then 25 else 0) +
  (if applicable && decide (recency = .fail) then 20 else 0) +
  (if fact = .fail then 40 else 0) +
  (if tone = .fail then 15 else 0)

/-! ## Workflow decider -/

/-- `Number(process.env.TRUST_SCORE_THRESHOLD || 80)` — the configured
threshold defaults to 80 (`env.trustThreshold`). -/
def trustThresholdDefault : ℤ := 80

/-- The publish/hold decision computed at the end of the route. -/
structure WorkflowDecision where
  blocked : Bool
  requiresReview : Bool
  status : String
deriving DecidableEq

/-- Lines `const blocked = trustScore < env.trustThreshold`,
`const requiresReview = blocked || swarm.agentInserts.some((a) => a.status === 'fail')`,
`const workflowStatus = requiresReview ? 'review' : 'draft'`. -/
def workflowDecide (trustThreshold trustScore : ℤ) (insertStatuses : List AgentStatus) :
    WorkflowDecision :=
  let blocked := decide (trustScore < trustThreshold)
  let requiresReview := blocked || insertStatuses.any (fun s => decide (s = .fail))
  ⟨blocked, requiresReview, if requiresReview then "review" else "draft"⟩

/-! ## Humanize level and rewrite gate -/

/-- One field of the request JSON, as far as the route inspects it:
absent, present but not a string, or a string. -/
inductive JsonField where
  | missing
  | nonString
  | str (s : String)
deriving DecidableEq

/-- `const validHumanizeLevels = ['off', 'standard', 'strong']`. -/
def validHumanizeLevels : List String := ["off", "standard", "strong"]

/-- `typeof humanizeLevel === 'string' && isHumanizeLevel(humanizeLevel)
? humanizeLevel : 'standard'`. -/
def humanizeLevelText : JsonField → String
  | .str s => if validHumanizeLevels.contains s then s else "standard"
  | _ => "standard"

/-- `const remainingMs = () => 85000 - (Date.now() - startedAt)`. -/
def remainingMs (elapsedMs : ℤ) : ℤ := 85000 - elapsedMs

/-- `const shouldRewrite = Boolean(env.humanizeContentModel) &&
humanizeLevelText !== 'off' && contentTypeText !== 'meta_tags' &&
remainingMs() > 20000`. -/
def shouldRewrite (humanizeContentModel level contentType : String) (elapsedMs : ℤ) : Bool :=
  humanizeContentModel ≠ "" && level ≠ "off" && contentType ≠ "meta_tags" &&
    remainingMs elapsedMs > 20000

/-! ## Retry gateway (`isRetryableEdgeFunctionError`, `invokeEdgeFunctionWithRetry`) -/

/-- `isRetryableEdgeFunctionError(err)` on the message text produced by
`errorMessage(err)`. -/
def isRetryableEdgeFunctionError (msgRaw : String) : Bool :=
  let msg := lowerStr msgRaw
  if msg = "" then false
  else if includesStr msg "cohere_unavailable" then false
  else if includesStr msg "_timeout" then true
  else if includesStr msg "earlydrop" then true
  else if includesStr msg "shutdown" then true
  else if includesStr msg "edge function" && includesStr msg "failed" then true
  else if includesStr msg "fetch failed" then true
  else if includesStr msg "econnreset" then true
  else if includesStr msg "etimedout" then true
  else if includesStr msg "socket" then true
  else if includesStr msg "504" || includesStr msg "503" then true
  else false

/-- What one attempt of the wrapped edge-function invocation produced:
the race timed out, the invocation reported an error (with its message
text), or it succeeded. -/
inductive InvokeOutcome where
  | timedOut
  | fnError (msg : String)
  | success
deriving DecidableEq

/-- The value `invokeEdgeFunctionWithRetry` resolves to, plus the backoff
waits it performed. It always returns a tagged value, never throws. -/
structure RetryResult where
  succeeded : Bool
  errorMsg : Option String
  attempts : ℕ
  waitsMs : List ℕ
deriving DecidableEq

/-- The `for (let attempt = 1; attempt <= max; attempt++)` loop body of
`invokeEdgeFunctionWithRetry`; `fuel` counts the iterations left. On a
timeout the classified message is the `withTimeout` reason
`` `${fn}_timeout` ``; a retryable failure before the last attempt waits
`250 * attempt` ms and continues. -/
def retryLoop (fn : String) (outcome : ℕ → InvokeOutcome) (maxA : ℕ) :
    ℕ → ℕ → RetryResult
  | 0, _ => ⟨false, some "unreachable", maxA, []⟩
  | fuel + 1, attempt =>
    match outcome attempt with
    | .success => ⟨true, none, attempt, []⟩
    | .timedOut =>
      let msg := fn ++ "_timeout"
      if attempt < maxA ∧ isRetryableEdgeFunctionError msg then
        let r := retryLoop fn outcome maxA fuel (attempt + 1)
        { r with waitsMs := 250 * attempt :: r.waitsMs }
      else ⟨false, some msg, attempt, []⟩
    | .fnError m =>
      if attempt < maxA ∧ isRetryableEdgeFunctionError m then
        let r := retryLoop fn outcome maxA fuel (attempt + 1)
        { r with waitsMs := 250 * attempt :: r.waitsMs }
      else ⟨false, some m, attempt, []⟩

/-- `invokeEdgeFunctionWithRetry` with `const max = Math.max(1,
Math.floor(args.maxAttempts))`. -/
def invokeEdgeFunctionWithRetry (fn : String) (outcome : ℕ → InvokeOutcome)
    (maxAttempts : ℤ) : RetryResult :=
  let maxN := (max 1 maxAttempts).toNat
  retryLoop fn outcome maxN maxN 1

/-! ## Evidence verifier (`normalizeUrlString`, `checkUrlExists`) -/

/-- The WHATWG `new URL(...)` result, as far as the route inspects it.
URL parsing is a platform service, so it enters the embedding as an
oracle `String → Option ParsedUrl` (`none` models the constructor
throwing). -/
structure ParsedUrl where
  protocol : String
  asString : String
deriving DecidableEq

/-- `[a-z0-9.-]` with the `i` flag. -/
def isDomChar (c : Char) : Bool := c.isAlpha || c.isDigit || c = '.' || c = '-'

/-- Matches `\.[a-z]{2,}(?:[\/?#]|$)` at the head of the list (with `i`):
a dot, at least two letters, then end of input or one of `/ ? #`.
Only the full letter run can satisfy the tail, so the greedy run decides. -/
def domainTail (cs : List Char) : Bool :=
  match cs with
  | '.' :: rest =>
    let run := rest.takeWhile Char.isAlpha
    decide (2 ≤ run.length) &&
      (match rest.drop run.length with
       | [] => true
       | c :: _ => c = '/' || c = '?' || c = '#')
  | _ => false

/-- Backtracking match of `^[a-z0-9.-]+` followed by `domainTail`: some
non-empty prefix of domain characters whose remainder matches the tail. -/
def domainScan : List Char → Bool
  | [] => false
  | c :: rest => isDomChar c && (domainTail rest || domainScan rest)

/-- The candidate string `normalizeUrlString` hands to `new URL`:
protocol-relative inputs get `https:`, `www.`-or-domain-shaped inputs get
`https://`. -/
def urlCandidate (input : String) : String :=
  let raw := jsTrim input
  let c1 := if startsWithStr raw "//" then "https:" ++ raw else raw
  if !startsWithStr c1 "http://" && !startsWithStr c1 "https://" then
    if startsWithStr c1 "www." then "https://" ++ c1
    else if domainScan c1.data then "https://" ++ c1
    else c1
  else c1

/-- `normalizeUrlString(input)`: empty for blank input, for unparsable
candidates and for non-http(s) protocols; otherwise `u.toString()`. -/
def normalizeUrlString (parseURL : String → Option ParsedUrl) (input : String) : String :=
  if jsTrim input = "" then ""
  else
    match parseURL (urlCandidate input) with
    | some u => if u.protocol ≠ "http:" && u.protocol ≠ "https:" then "" else u.asString
    | none => ""

/-- The `fetch` outcome observed by `checkUrlExists`: `none` is any
network failure (including timeout), otherwise the response status and
the redirect-resolved `res.url`. -/
structure FetchResponse where
  status : ℤ
  url : String
deriving DecidableEq

/-- `(status >= 200 && status < 400) || status === 401 || status === 403 ||
status === 405 || status === 429`. -/
def checkOkStatus (status : ℤ) : Bool :=
  (decide (200 ≤ status) && decide (status < 400)) || status == 401 || status == 403 ||
    status == 405 || status == 429

/-- The value `checkUrlExists` resolves to. -/
structure CheckUrlResult where
  ok : Bool
  url : String
  status : Option ℤ
deriving DecidableEq

/-- `checkUrlExists(url, timeoutMs)` with the network outcome supplied as
an oracle. -/
def checkUrlExists (parseURL : String → Option ParsedUrl)
    (fetchResult : Option FetchResponse) (url : String) : CheckUrlResult :=
  let u := normalizeUrlString parseURL url
  if u = "" then ⟨false, "", none⟩
  else
    match fetchResult with
    | none => ⟨false, u, none⟩
    | some res =>
      let finalU := normalizeUrlString parseURL (if res.url = "" then u else res.url)
      ⟨checkOkStatus res.status, if finalU = "" then u else finalU, some res.status⟩

/-! ## Sources section rendering and stripping -/

/-- Case-insensitive literal match: consume the pattern characters from the
head of the list (ASCII case folding), returning the remainder. -/
def consumeCI : List Char → List Char → Option (List Char)
  | [], cs => some cs
  | _ :: _, [] => none
  | p :: ps, c :: cs => if p.toLower = c.toLower then consumeCI ps cs else none

/-- `cs.dropWhile jsWs` — the exact span a regex `\s*` consumes when the
following pattern character is not white space. -/
def dropWs (cs : List Char) : List Char := cs.dropWhile jsWs

/-- After the section title, `\s*[\r\n]` can match iff the leading
white-space run contains a CR or LF. -/
def afterTitleOk (cs : List Char) : Bool :=
  (cs.takeWhile jsWs).any (fun c => c = '\r' || c = '\n')

/-- The alternation `(Sources\s*\/\s*References|Sources|References)` of the
strip regex followed by `\s*[\r\n]`, matched at the head of the list. -/
def sourcesTitleThen (r : List Char) : Bool :=
  (match consumeCI "sources".data r with
   | some r2 =>
     afterTitleOk r2 ||
       (match dropWs r2 with
        | d :: r3 =>
          d = '/' &&
            (match consumeCI "references".data (dropWs r3) with
             | some r4 => afterTitleOk r4
             | none => false)
        | [] => false)
   | none => false) ||
  (match consumeCI "references".data r with
   | some r5 => afterTitleOk r5
   | none => false)

/-- Does `/\n##\s*(Sources\s*\/\s*References|Sources|References)\s*[\r\n]/i`
match at the head of the list? -/
def sourcesHeaderAt : List Char → Bool
  | c1 :: c2 :: c3 :: rest =>
    c1 = '\n' && c2 = '#' && c3 = '#' && sourcesTitleThen (dropWs rest)
  | _ => false

/-- `text.search(...)` for the strip regex: index of the leftmost match. -/
def findSourcesHeader : List Char → Option ℕ
  | [] => none
  | c :: cs =>
    if sourcesHeaderAt (c :: cs) then some 0 else (findSourcesHeader cs).map (· + 1)

/-- `stripTrailingSourcesSection(text)`: cut at the first matched sources
heading (or keep all), then trim. -/
def stripTrailingSourcesSection (text : List Char) : List Char :=
  match findSourcesHeader text with
  | none => trimChars text
  | some idx => trimChars (text.take idx)

/-- `type Citation = { title: string; url: string; source: string }`. -/
structure Citation where
  title : String
  url : String
  source : String
deriving DecidableEq

/-- One line of the rendered sources list:
`` url ? `[${i + 1}] ${title} - ${url}` : `[${i + 1}] ${title}` `` with the
title defaulted to `'Source'`. -/
def formatCitationLine (i : ℕ) (c : Citation) : List Char :=
  let title0 := if c.title = "" then "Source" else c.title
  let title := if jsTrim title0 = "" then "Source" else jsTrim title0
  let url := jsTrim c.url
  ("[" ++ Nat.repr (i + 1) ++ "] " : String).data ++
    ((title ++ (if url = "" then "" else " - " ++ url)) : String).data

/-- `formatSourcesSection(citations)`. -/
def formatSourcesSection (citations : List Citation) : List Char :=
  if citations = [] then
    ("\n\n## Sources / References\nNo sources were retrieved.\n" : String).data
  else
    ("\n\n## Sources / References" : String).data ++ ("\n" : String).data ++
      List.intercalate ("\n" : String).data
        (citations.enum.map (fun p => formatCitationLine p.1 p.2)) ++
      ("\n" : String).data

/-! ## Content Source Notice test and append -/

/-- The `\w` class: `[A-Za-z0-9_]`. -/
def isWordChar (c : Char) : Bool := c.isAlpha || c.isDigit || c = '_'

/-- The literal `Content Source Notice` followed by the `\b` boundary:
after the case-insensitive literal, the remainder must be empty or start
with a non-word character. -/
def noticeTitleThen (r : List Char) : Bool :=
  match consumeCI "content source notice".data r with
  | some [] => true
  | some (c :: _) => !isWordChar c
  | none => false

/-- Does `/##\s*Content Source Notice\b/i` match at the head of the list? -/
def noticeHeaderAt : List Char → Bool
  | c1 :: c2 :: rest => c1 = '#' && c2 = '#' && noticeTitleThen (dropWs rest)
  | _ => false

/-- Generic scan: does the head matcher fire at some position of the list
(`regex.test` for a matcher that examines the tail from a position)? -/
def scanAt (hAt : List Char → Bool) : List Char → Bool
  | [] => false
  | c :: cs => hAt (c :: cs) || scanAt hAt cs

/-- Generic count of positions at which the head matcher fires. -/
def countAt (hAt : List Char → Bool) : List Char → ℕ
  | [] => 0
  | c :: cs => (if hAt (c :: cs) then 1 else 0) + countAt hAt cs

/-- `.test(...)` of the notice regex: a match exists at some position. -/
def testContentSourceNotice (l : List Char) : Bool := scanAt noticeHeaderAt l

/-- Number of positions at which the notice regex matches; "the body
contains the notice section exactly once" is `countNoticeMatches = 1`. -/
def countNoticeMatches (l : List Char) : ℕ := countAt noticeHeaderAt l

/-- A sources heading (in the sense of the strip regex) occurs somewhere
in the list. -/
def hasSourcesHeader (l : List Char) : Bool := scanAt sourcesHeaderAt l

/-- The `contentSourceNotice` text chosen at prompt-assembly time. -/
def contentSourceNoticeText (internetFallbackUsed : Bool) (citations : List Citation) :
    String :=
  if internetFallbackUsed then
    if citations ≠ [] then
      "This content was generated from internet sources, not from the approved universe of public domains."
    else
      "Sources could not be retrieved; this draft was generated without verified sources and is not from the approved universe."
  else ""

/-- The block repeated after generation and after each rewrite:
`` if (internetFallbackUsed && !/##\s*Content Source Notice\b/i.test(finalBody))
finalBody += `\n\n## Content Source Notice\n${contentSourceNotice}\n` ``. -/
def appendNoticeIfMissing (internetFallbackUsed : Bool) (notice : String)
    (body : List Char) : List Char :=
  if internetFallbackUsed && !testContentSourceNotice body then
    body ++ ("\n\n## Content Source Notice\n" : String).data ++ notice.data ++
      ("\n" : String).data
  else body

/-- `buildGenerationNotice({ contentSource, status })`. -/
def buildGenerationNotice (contentSource status : String) : List Char :=
  ("## Generation Notice\nContent source: " : String).data ++ (jsTrim contentSource).data ++
    ("\nStatus: " : String).data ++ (jsTrim status).data ++ ("\n\n" : String).data

/-! ## Generation attempt loop and finalize stage -/

/-- The external calls the orchestrator can issue; the route model returns
the list of calls it made so that "never calls X" claims are statable. -/
inductive ExtCall where
  | queryDocs (mode : String)
  | privateTextSearch
  | publicTextSearch
  | collectDocs
  | internetSearch
  | generationCall (model : String)
  | rewriteCall (purpose : String)
  | validationCall
deriving DecidableEq

/-- The environment configuration consumed by the route
(`env` plus the two `process.env` generation knobs; `none` = unset). -/
structure RouteEnv where
  textModel : String
  textModelFallback : String
  humanizeContentModel : String
  trustThreshold : ℤ
  genMaxAttemptsOverride : Option ℕ
deriving DecidableEq

/-- `[env.textModel, env.textModelFallback || undefined,
'openrouter/auto'].filter(Boolean)` (empty strings are dropped either by
the `|| undefined` or by `filter(Boolean)`). -/
def generationCandidates (env : RouteEnv) : List String :=
  [env.textModel, env.textModelFallback, "openrouter/auto"].filter (fun s => s ≠ "")

/-- `Math.min(Number(process.env.GENERATION_MAX_ATTEMPTS ||
defaultMaxAttempts), candidates.length)` with
`defaultMaxAttempts = Math.min(2, candidates.length)`. -/
def generationMaxAttempts (env : RouteEnv) (candidates : List String) : ℕ :=
  min (env.genMaxAttemptsOverride.getD (min 2 candidates.length)) candidates.length

/-- The `for (const model of candidates.slice(0, maxAttempts))` loop:
returns the first non-empty generated text, the last recorded error and
the generation calls issued. `result i` is the outcome of the i-th
`callOpenRouterText` (an error reason or the returned text). -/
def generationLoop (result : ℕ → Except String String) :
    List String → ℕ → String → String × String × List ExtCall
  | [], _, lastError => ("", lastError, [])
  | m :: rest, i, lastError =>
    match result i with
    | .error reason =>
      let r := generationLoop result rest (i + 1) reason
      (r.1, r.2.1, .generationCall m :: r.2.2)
    | .ok text =>
      if text = "" then
        let r := generationLoop result rest (i + 1) lastError
        (r.1, r.2.1, .generationCall m :: r.2.2)
      else (text, lastError, [.generationCall m])

/-- The hard-coded swarm replacement used when the time budget gate fails
(route lines building `trustScore: 0` with four failed agents). -/
def skippedSwarmOutput : SwarmOutput :=
  { results :=
      ⟨⟨.fail, ["validation_skipped_time_budget"], 0⟩,
       ⟨.fail, ["validation_skipped_time_budget"], 0⟩,
       ⟨.fail, ["validation_skipped_time_budget"], 0⟩,
       ⟨.fail, ["validation_skipped_time_budget"], 0⟩⟩
    trustScore := 0
    warnings := ["This content requires manual review."]
    agentInserts := [] }

/-- `remainingMs() > 15000 ? await validation_swarm({...}) : {...skipped...}` -/
def validationStage (elapsedMs : ℤ) (swarmRun : SwarmOutput) : SwarmOutput :=
  if remainingMs elapsedMs > 15000 then swarmRun else skippedSwarmOutput

/-- External outcomes consumed by the post-retrieval part of the route:
generation results per attempt, the elapsed wall-clock time at each gate,
the two rewrite outcomes and the four validation agent outcomes. -/
structure FinalizeOracle where
  genResult : ℕ → Except String String
  elapsedAtRewriteGate : ℤ
  rewrite1 : Except String String
  elapsedAtStrongGate : ℤ
  rewrite2 : Except String String
  elapsedAtValidationGate : ℤ
  swarmCalls : SwarmCalls

/-- The success payload assembled at the end of the route: the client
response (`outputForClient`), the persisted output (`outputForDb`) and the
decision fields. -/
structure SuccessPayload where
  clientBody : List Char
  reviewBody : List Char
  dbBody : List Char
  blocked : Bool
  requiresReview : Bool
  workflowStatus : String
  trustScore : ℤ
  results : ValidationSwarmResults
  humanized : Bool
  internetFallbackUsed : Bool
  warnings : List String
deriving DecidableEq

/-- The route outcome: an error response with HTTP status and `error`
code, or a success payload. -/
inductive RouteOutcome where
  | httpError (status : ℤ) (code : String)
  | ok (payload : SuccessPayload)
deriving DecidableEq

/-- `stripTrailingSourcesSection(body) + formatSourcesSection(citations)`
followed by the conditional notice append — the assembly applied to the
generated draft and to each rewrite output. -/
def assembleBody (internetFallbackUsed : Bool) (notice : String)
    (citations : List Citation) (draft : String) : List Char :=
  appendNoticeIfMissing internetFallbackUsed notice
    (stripTrailingSourcesSection draft.data ++ formatSourcesSection citations)

/-- One gated rewrite pass: when the gate holds and the rewrite call
returned non-empty text, the body is replaced by the canonical assembly
of the rewritten text and `humanized` is set; otherwise the previous body
and flag are kept (a failed pass is non-fatal). -/
def rewritePass (assemble : String → List Char) (gate : Bool) (tag : String)
    (res : Except String String) (prev : List Char × Bool) :
    List Char × Bool × List ExtCall :=
  if gate then
    match res with
    | .ok t =>
      if t ≠ "" then (assemble t, true, [.rewriteCall tag])
      else (prev.1, prev.2, [.rewriteCall tag])
    | .error _ => (prev.1, prev.2, [.rewriteCall tag])
  else (prev.1, prev.2, [])

/-- The tail of the route: workflow decision, warning merge, generation
notice prepend and output splitting (`outputForDb` / `outputForClient`),
over the swarm output and the assembled body. -/
def finalizeDecision (env : RouteEnv) (mode : String) (internetFallbackUsed : Bool)
    (warnings : List String) (humanized : Bool) (swarm : SwarmOutput)
    (body : List Char) : SuccessPayload :=
  let trustScore := swarm.trustScore
  let decision :=
    workflowDecide env.trustThreshold trustScore (swarm.agentInserts.map (·.status))
  let blocked := decision.blocked
  let mergedWarnings0 := warnings ++ swarm.warnings
  let mergedWarnings :=
    if blocked && decide (mergedWarnings0 = []) then
      mergedWarnings0 ++ ["This content requires manual review."]
    else mergedWarnings0
  let isPrivateMode := mode == "private"
  let contentSourceLabel :=
    if isPrivateMode then "Private SOP context"
    else if internetFallbackUsed then "Internet fallback" else "Universe-based"
  let statusLabel := if decision.requiresReview then "Needs manual review" else "Validated"
  let finalBody := buildGenerationNotice contentSourceLabel statusLabel ++ trimChars body
  { clientBody := if blocked then [] else finalBody
    reviewBody := if blocked then finalBody else []
    dbBody := finalBody
    blocked := blocked
    requiresReview := decision.requiresReview
    workflowStatus := decision.status
    trustScore := trustScore
    results := swarm.results
    humanized := humanized
    internetFallbackUsed := internetFallbackUsed
    warnings := mergedWarnings }

/-- The generation attempt loop of the route with its candidate list and
attempt bound. -/
def finalizeGen (env : RouteEnv) (o : FinalizeOracle) : String × String × List ExtCall :=
  generationLoop o.genResult
    ((generationCandidates env).take (generationMaxAttempts env (generationCandidates env)))
    0 ""

/-- Body assembly of the route after a successful generation: canonical
sources section and notice enforcement, then the two gated rewrite
passes. Returns the final pre-validation body, the `humanized` flag and
the rewrite calls made. -/
def finalizeBody (env : RouteEnv) (contentTypeText : String) (humanizeRaw : JsonField)
    (citations : List Citation) (internetFallbackUsed : Bool) (o : FinalizeOracle) :
    List Char × Bool × List ExtCall :=
  let notice := contentSourceNoticeText internetFallbackUsed citations
  let body1 := assembleBody internetFallbackUsed notice citations (finalizeGen env o).1
  let level := humanizeLevelText humanizeRaw
  let doRewrite :=
    shouldRewrite env.humanizeContentModel level contentTypeText o.elapsedAtRewriteGate
  let step1 :=
    rewritePass (assembleBody internetFallbackUsed notice citations) doRewrite
      "rewrite_standard" o.rewrite1 (body1, false)
  let step2 :=
    rewritePass (assembleBody internetFallbackUsed notice citations)
      (doRewrite && level == "strong" && remainingMs o.elapsedAtStrongGate > 20000)
      "rewrite_strong" o.rewrite2 (step1.1, step1.2.1)
  (step2.1, step2.2.1, step1.2.2 ++ step2.2.2)

/-- The validation swarm of the route behind its time-budget gate. -/
def finalizeSwarm (env : RouteEnv) (mode : String) (internetFallbackUsed : Bool)
    (o : FinalizeOracle) : SwarmOutput :=
  validationStage o.elapsedAtValidationGate
    (validation_swarm ⟨mode, internetFallbackUsed⟩ env.trustThreshold o.swarmCalls)

/-- The route from the generation attempt loop to the final payload
(source lines after the `no_sources` gate): generation with fallback
models, canonical sources section, notice enforcement, optional rewrite
passes, time-gated validation swarm, workflow decision and output
splitting. -/
def finalizeStage (env : RouteEnv) (mode contentTypeText : String)
    (humanizeRaw : JsonField) (citations : List Citation)
    (internetFallbackUsed : Bool) (warnings : List String) (o : FinalizeOracle) :
    RouteOutcome × List ExtCall :=
  if (finalizeGen env o).1 = "" then
    (.httpError 500 "generation_failed", (finalizeGen env o).2.2)
  else
    (.ok (finalizeDecision env mode internetFallbackUsed warnings
        (finalizeBody env contentTypeText humanizeRaw citations internetFallbackUsed o).2.1
        (finalizeSwarm env mode internetFallbackUsed o)
        (finalizeBody env contentTypeText humanizeRaw citations internetFallbackUsed o).1),
     (finalizeGen env o).2.2 ++
       (finalizeBody env contentTypeText humanizeRaw citations internetFallbackUsed o).2.2 ++
       (if remainingMs o.elapsedAtValidationGate > 15000 then [.validationCall] else []))

/-! ## Retrieval resolver and route composition -/

/-- `const validContentTypes = [...]` and the `'long_article'` default. -/
def validContentTypes : List String :=
  ["long_article", "short_article", "web2_article", "pr", "webpage_revision",
   "meta_tags", "webpage_summary"]

/-- `typeof contentType === 'string' && isContentType(contentType)
? contentType : 'long_article'`. -/
def contentTypeTextOf : JsonField → String
  | .str s => if validContentTypes.contains s then s else "long_article"
  | _ => "long_article"

/-- The private-chunk metadata, as far as the route reads it: `some s`
models a string-typed field, `none` a missing or non-string field. -/
structure PrivMeta where
  title : Option String
  url : Option String
deriving DecidableEq

/-- One row returned by the private retrieval (`PrivateChunk`); a null
content is modelled as the empty string (the route coalesces it with
`d.content || ''`), a non-record metadata as `none`. -/
structure PrivateChunk where
  content : String
  metadata : Option PrivMeta
deriving DecidableEq

/-- `{ title: typeof m.title === 'string' && m.title.trim() ? m.title :
'SOP', url: typeof m.url === 'string' ? m.url : '', source: 'SOP' }`. -/
def privCitationOfMeta (m : PrivMeta) : Citation :=
  { title :=
      match m.title with
      | some t => if jsTrim t ≠ "" then t else "SOP"
      | none => "SOP"
    url := m.url.getD ""
    source := "SOP" }

/-- Context and citations derived from a list of private chunks (the
mapping repeated for the edge result and the text-search fallback). -/
def privChunksToState (chunks : List PrivateChunk) : String × List Citation :=
  (String.intercalate "\n\n" (chunks.map (·.content)),
   (chunks.filterMap (·.metadata)).map privCitationOfMeta)

/-- One row of the public retrieval (`RagDoc`); null fields are modelled
as empty strings, which is how every use site coalesces them. -/
structure RagDoc where
  title : String
  url : String
  content : String
  source : String
deriving DecidableEq

/-- `d.title || 'Source'`. -/
def ragTitle (d : RagDoc) : String := if d.title = "" then "Source" else d.title

/-- `d.source || 'Unknown'`. -/
def ragSource (d : RagDoc) : String := if d.source = "" then "Unknown" else d.source

/-- `{ title: d.title || 'Source', url: d.url || '', source: d.source ||
'Unknown' }`. -/
def ragDocCitation (d : RagDoc) : Citation := ⟨ragTitle d, d.url, ragSource d⟩

/-- `` docs.map((d) => `${d.title || ''}\n${d.content || ''}`).join('\n\n') ``. -/
def joinDocsContext (docs : List RagDoc) : String :=
  String.intercalate "\n\n" (docs.map (fun d => d.title ++ "\n" ++ d.content))

/-- `toHostSource(url)`: the hostname without a leading `www.`, or
`'Internet'` when URL parsing throws. -/
def toHostSource (parseURL : String → Option ParsedUrl) (hostnameOf : String → String)
    (url : String) : String :=
  match parseURL url with
  | some _ =>
    let h := hostnameOf url
    if startsWithStr h "www." then ⟨h.data.drop 4⟩ else h
  | none => "Internet"

/-- Outcome of the public `query-docs` edge invocation: an error (message
and error-context body, both inspected for warning texts) or data
(`none` when the payload is not an array). -/
inductive PubEdgeOutcome where
  | err (msg ctxBody : String)
  | ok (data : Option (List RagDoc))
deriving DecidableEq

/-- Outcome of the secondary collection boost: the de-duplicated merge of
edge and collected documents, and the `verifyUrls` result on the ranked
top five (both network-dependent, so supplied as outcomes). -/
structure BoostOutcome where
  merged : List RagDoc
  verified : List RagDoc
deriving DecidableEq

/-- All external outcomes the retrieval section can consume on one run. -/
structure RetrievalOracle where
  privEdge : Except String (Option (List PrivateChunk))
  privText : Except String (List PrivateChunk)
  pubEdge : PubEdgeOutcome
  verifiedEdgeDocs : List RagDoc
  generalPrivData : Option (List PrivateChunk)
  pubText : Except String (List RagDoc)
  verifiedTextDocs : List RagDoc
  boost : Option BoostOutcome
  internetDocs : Except String (List RagDoc)
  parseURL : String → Option ParsedUrl
  hostnameOf : String → String

/-- The mutable retrieval-section state of the route
(`context`, `citations`, `warnings`, `retrievalError`,
`internetFallbackUsed`, `retrievedDocs`). -/
structure RetrievalState where
  context : String
  citations : List Citation
  warnings : List String
  retrievalError : Option String
  internetFallbackUsed : Bool
  retrievedDocs : List RagDoc
deriving DecidableEq

/-- The empty initial retrieval state. -/
def initialRetrievalState : RetrievalState := ⟨"", [], [], none, false, []⟩

/-- The state after the private edge query (`query-docs`, mode private):
either the retrieval error is recorded or context and citations are built
from the returned chunks. -/
def privEdgeState (o : RetrievalOracle) : RetrievalState :=
  match o.privEdge with
  | .error e => { initialRetrievalState with retrievalError := some e }
  | .ok none => initialRetrievalState
  | .ok (some chunks) =>
    let cc := privChunksToState chunks
    { initialRetrievalState with context := cc.1, citations := cc.2 }

/-- The private text-search fallback, attempted only when the context
stayed empty. -/
def privTextStep (o : RetrievalOracle) (s1 : RetrievalState) :
    RetrievalState × List ExtCall :=
  if s1.context = "" then
    match o.privText with
    | .ok fallbackChunks =>
      if fallbackChunks ≠ [] then
        let cc := privChunksToState fallbackChunks
        ({ s1 with
            warnings := s1.warnings ++ ["Used private text search fallback for retrieval."]
            context := cc.1
            citations := cc.2 }, [.privateTextSearch])
      else (s1, [.privateTextSearch])
    | .error e =>
      ({ s1 with
          warnings := s1.warnings ++ ["Private text search fallback failed: " ++ e] },
       [.privateTextSearch])
  else (s1, [])

/-- `if (context && citations.length === 0) citations = [{ title: 'SOP',
url: '', source: 'SOP' }]`. -/
def privSopStep (s2 : RetrievalState) : RetrievalState :=
  if s2.context ≠ "" && decide (s2.citations = []) then
    { s2 with citations := [⟨"SOP", "", "SOP"⟩] }
  else s2

/-- The private branch of the retrieval section: edge query, text-search
fallback when the context stayed empty, and the synthetic `SOP` citation
when context exists but no citation does. -/
def resolvePrivateRetrieval (o : RetrievalOracle) : RetrievalState × List ExtCall :=
  let st := privTextStep o (privEdgeState o)
  (privSopStep st.1, .queryDocs "private" :: st.2)

/-- The public branch of the retrieval section: edge query with URL
verification, warning synthesis on errors, the general-mode private
context merge, and the universe text-search fallback. -/
def resolvePublicRetrieval (mode : String) (o : RetrievalOracle) :
    RetrievalState × List ExtCall :=
  let s1t : RetrievalState × List ExtCall :=
    match o.pubEdge with
    | .err msg ctxBody =>
      let warns :=
        if includesStr msg "No recent data found" ||
            includesStr ctxBody "No recent data found" then
          ["No recent data found in universe documents; falling back to internet or text search."]
        else if includesStr (lowerStr msg) "earlydrop" then
          ["Retrieval service dropped the request early; used internet or text search fallback."]
        else []
      ({ initialRetrievalState with retrievalError := some msg, warnings := warns },
       [.queryDocs "public"])
    | .ok none => (initialRetrievalState, [.queryDocs "public"])
    | .ok (some docs) =>
      let validDocs := o.verifiedEdgeDocs
      let warns :=
        if docs ≠ [] && decide (validDocs = []) then
          ["All retrieved sources failed link validation and were discarded."]
        else []
      let base : RetrievalState :=
        { initialRetrievalState with
            retrievedDocs := docs
            citations := validDocs.map ragDocCitation
            context := joinDocsContext validDocs
            warnings := warns }
      if mode == "general" then
        (match o.generalPrivData with
         | some chunks2 =>
           { base with
               context :=
                 base.context ++ "\n\n" ++
                   String.intercalate "\n\n" (chunks2.map (·.content)) }
         | none => base, [.queryDocs "public", .queryDocs "private"])
      else (base, [.queryDocs "public"])
  let s1 := s1t.1
  let step2 : RetrievalState × List ExtCall :=
    if s1.context = "" then
      match o.pubText with
      | .ok fallbackDocs =>
        if fallbackDocs ≠ [] then
          let docs2 := o.verifiedTextDocs
          ({ s1 with
              warnings := s1.warnings ++ ["Used universe text search fallback for retrieval."]
              retrievedDocs := fallbackDocs
              citations := docs2.map ragDocCitation
              context := joinDocsContext docs2 }, [.publicTextSearch])
        else (s1, [.publicTextSearch])
      | .error e =>
        ({ s1 with
            warnings := s1.warnings ++ ["Universe text search fallback failed: " ++ e] },
         [.publicTextSearch])
    else (s1, [])
  (step2.1, s1t.2 ++ step2.2)

/-- The secondary collection boost, guarded by
`!isPrivateMode && citations.length < 3`: when the merged document list is
non-empty the citations, context and chunks are replaced wholesale by the
verified ranked result. -/
def boostStep (o : RetrievalOracle) (s : RetrievalState) : RetrievalState × List ExtCall :=
  if s.citations.length < 3 then
    (match o.boost with
     | some b =>
       if b.merged ≠ [] then
         { s with citations := b.verified.map ragDocCitation
                  context := joinDocsContext b.verified }
       else s
     | none => s, [.collectDocs])
  else (s, [])

/-- The internet fallback, guarded by `!isPrivateMode &&
citations.length === 0`; a non-empty result sets `internetFallbackUsed`
and puts the internet context first. -/
def internetFallbackStep (o : RetrievalOracle) (s : RetrievalState) :
    RetrievalState × List ExtCall :=
  if s.citations = [] then
    (match o.internetDocs with
     | .ok docs =>
       if docs ≠ [] then
         { s with
             internetFallbackUsed := true
             warnings := s.warnings ++
               ["No universe sources found; used internet sources as fallback."]
             citations := docs.map (fun d =>
               ⟨ragTitle d, d.url,
                if d.source = "" then toHostSource o.parseURL o.hostnameOf d.url
                else d.source⟩)
             context :=
               (let ic := joinDocsContext docs
                if s.context ≠ "" then ic ++ "\n\n" ++ s.context else ic) }
       else s
     | .error e =>
       { s with warnings := s.warnings ++ ["Internet fallback failed: " ++ e] },
     [.internetSearch])
  else (s, [])

/-- The whole retrieval section keyed on `mode`, including the
`context.slice(0, 8000)` truncation. -/
def resolveRetrieval (mode : String) (o : RetrievalOracle) :
    RetrievalState × List ExtCall :=
  let main : RetrievalState × List ExtCall :=
    if mode == "private" then resolvePrivateRetrieval o
    else
      let p := resolvePublicRetrieval mode o
      let b := boostStep o p.1
      let i := internetFallbackStep o b.1
      (i.1, p.2 ++ b.2 ++ i.2)
  ({ main.1 with context := ⟨main.1.context.data.take 8000⟩ }, main.2)

/-- All external outcomes of one route invocation. -/
structure RouteOracle where
  retrieval : RetrievalOracle
  finalize : FinalizeOracle

/-- The route handler after its input/configuration prechecks: retrieval
resolution, the private-mode `no_sources` gate, and the finalize stage.
Returns the outcome and the external calls made. -/
def generateRoute (env : RouteEnv) (mode : String) (contentTypeRaw humanizeRaw : JsonField)
    (o : RouteOracle) : RouteOutcome × List ExtCall :=
  let r := resolveRetrieval mode o.retrieval
  let st := r.1
  if decide (st.citations = []) && mode == "private" then
    (.httpError 422 "no_sources", r.2)
  else
    let st2 :=
      if st.citations = [] then
        { st with
            internetFallbackUsed := true
            warnings := st.warnings ++
              ["No sources could be retrieved; generated a draft without verifiable citations."] }
      else st
    let fin := finalizeStage env mode (contentTypeTextOf contentTypeRaw) humanizeRaw
      st2.citations st2.internetFallbackUsed st2.warnings o.finalize
    (fin.1, r.2 ++ fin.2)

/-! ## Toolkit lemmas about the matchers -/

theorem consumeCI_extend {p cs r : List Char} (e : List Char)
    (h : consumeCI p cs = some r) : consumeCI p (cs ++ e) = some (r ++ e) := by
  induction p generalizing cs with
  | nil =>
    simp only [consumeCI, Option.some.injEq] at h
    simp [consumeCI, h]
  | cons pc ps ih =>
    cases cs with
    | nil => simp [consumeCI] at h
    | cons c cs2 =>
      simp only [consumeCI, List.cons_append] at h ⊢
      by_cases hc : pc.toLower = c.toLower
      · simp only [if_pos hc] at h ⊢
        exact ih h
      · simp [if_neg hc] at h

theorem consumeCI_split {p a b r : List Char} (h : consumeCI p (a ++ b) = some r) :
    (∃ ra, consumeCI p a = some ra ∧ r = ra ++ b) ∨
    (∃ p1 p2, p = p1 ++ p2 ∧ consumeCI p1 a = some [] ∧ consumeCI p2 b = some r) := by
  induction p generalizing a with
  | nil =>
    simp only [consumeCI, Option.some.injEq] at h
    exact Or.inl ⟨a, rfl, h.symm⟩
  | cons pc ps ih =>
    cases a with
    | nil =>
      exact Or.inr ⟨[], pc :: ps, rfl, rfl, by simpa using h⟩
    | cons c a2 =>
      simp only [consumeCI, List.cons_append] at h
      by_cases hc : pc.toLower = c.toLower
      · simp only [if_pos hc] at h
        rcases ih h with ⟨ra, h1, h2⟩ | ⟨p1, p2, hp, h1, h2⟩
        · exact Or.inl ⟨ra, by simp [consumeCI, if_pos hc, h1], h2⟩
        · exact Or.inr ⟨pc :: p1, p2, by simp [hp],
            by simp [consumeCI, if_pos hc, h1], h2⟩
      · simp [if_neg hc] at h

theorem consumeCI_ws_mem {p b r : List Char} (h : consumeCI p b = some r)
    (hb : ∀ c ∈ b, jsWs c = true) :
    ∀ c ∈ p, ∃ d, jsWs d = true ∧ c.toLower = d.toLower := by
  induction p generalizing b with
  | nil => intro c hc; exact absurd hc (List.not_mem_nil c)
  | cons pc ps ih =>
    cases b with
    | nil => simp [consumeCI] at h
    | cons d b2 =>
      simp only [consumeCI] at h
      by_cases hc : pc.toLower = d.toLower
      · simp only [if_pos hc] at h
        intro c hcmem
        rcases List.mem_cons.mp hcmem with hceq | hcmem2
        · exact ⟨d, hb d (List.mem_cons_self d b2), by rw [hceq, hc]⟩
        · exact ih h (fun x hx => hb x (List.mem_cons_of_mem d hx)) c hcmem2
      · simp [if_neg hc] at h

theorem dropWs_extend {cs : List Char} {d : Char} {ds : List Char} (e : List Char)
    (h : dropWs cs = d :: ds) : dropWs (cs ++ e) = d :: (ds ++ e) := by
  unfold dropWs at h ⊢
  rw [List.dropWhile_append]
  simp [h]

theorem takeWhile_any_extend {cs : List Char} (e : List Char) {p q : Char → Bool}
    (h : (cs.takeWhile p).any q = true) : ((cs ++ e).takeWhile p).any q = true := by
  induction cs with
  | nil => simp [List.takeWhile] at h
  | cons c cs ih =>
    by_cases hp : p c
    · simp only [List.takeWhile_cons, hp, List.cons_append, List.any_cons] at h ⊢
      rcases Bool.or_eq_true_iff.mp h with hq | h2
      · exact Bool.or_eq_true_iff.mpr (Or.inl hq)
      · exact Bool.or_eq_true_iff.mpr (Or.inr (ih h2))
    · simp [List.takeWhile_cons, hp] at h

theorem afterTitleOk_extend {cs : List Char} (e : List Char)
    (h : afterTitleOk cs = true) : afterTitleOk (cs ++ e) = true := by
  unfold afterTitleOk at h ⊢
  exact takeWhile_any_extend e h

theorem sourcesTitleThen_extend {r : List Char} (e : List Char)
    (h : sourcesTitleThen r = true) : sourcesTitleThen (r ++ e) = true := by
  unfold sourcesTitleThen at h ⊢
  rcases Bool.or_eq_true_iff.mp h with hA | hB
  · rcases hcs : consumeCI "sources".data r with _ | r2
    · rw [hcs] at hA; simp at hA
    · rw [hcs] at hA
      rw [consumeCI_extend e hcs]
      refine Bool.or_eq_true_iff.mpr (Or.inl ?_)
      rcases Bool.or_eq_true_iff.mp hA with h1 | h2
      · exact Bool.or_eq_true_iff.mpr (Or.inl (afterTitleOk_extend e h1))
      · refine Bool.or_eq_true_iff.mpr (Or.inr ?_)
        rcases hdw : dropWs r2 with _ | ⟨d, r3⟩
        · rw [hdw] at h2; simp at h2
        · rw [hdw] at h2
          rcases Bool.and_eq_true_iff.mp h2 with ⟨hd, h3⟩
          rw [dropWs_extend e hdw]
          refine Bool.and_eq_true_iff.mpr ⟨hd, ?_⟩
          rcases hcs2 : consumeCI "references".data (dropWs r3) with _ | r4
          · rw [hcs2] at h3; simp at h3
          · rw [hcs2] at h3
            rcases hdw3 : dropWs r3 with _ | ⟨d3, r3t⟩
            · rw [hdw3] at hcs2; simp [consumeCI] at hcs2
            · rw [hdw3] at hcs2
              have hce := consumeCI_extend e hcs2
              rw [List.cons_append] at hce
              rw [dropWs_extend e hdw3, hce]
              exact afterTitleOk_extend e h3
  · rcases hcs : consumeCI "references".data r with _ | r5
    · rw [hcs] at hB; simp at hB
    · rw [hcs] at hB
      rw [consumeCI_extend e hcs]
      exact Bool.or_eq_true_iff.mpr (Or.inr (afterTitleOk_extend e hB))

theorem sourcesTitleThen_nil : sourcesTitleThen [] = false := by decide

theorem sourcesHeaderAt_extend {cs : List Char} (e : List Char)
    (h : sourcesHeaderAt cs = true) : sourcesHeaderAt (cs ++ e) = true := by
  rcases cs with _ | ⟨c1, _ | ⟨c2, _ | ⟨c3, rest⟩⟩⟩
  · simp [sourcesHeaderAt] at h
  · simp [sourcesHeaderAt] at h
  · simp [sourcesHeaderAt] at h
  · simp only [sourcesHeaderAt, List.cons_append] at h ⊢
    rcases Bool.and_eq_true_iff.mp h with ⟨h12, h3⟩
    refine Bool.and_eq_true_iff.mpr ⟨h12, ?_⟩
    rcases hdw : dropWs rest with _ | ⟨d, ds⟩
    · rw [hdw] at h3; rw [sourcesTitleThen_nil] at h3; exact absurd h3 (by simp)
    · rw [hdw] at h3
      rw [dropWs_extend e hdw]
      exact sourcesTitleThen_extend e h3

theorem scanAt_prepend (hAt : List Char → Bool) (a : List Char) {b : List Char}
    (h : scanAt hAt b = true) : scanAt hAt (a ++ b) = true := by
  induction a with
  | nil => simpa using h
  | cons c a ih =>
    simp only [List.cons_append, scanAt]
    exact Bool.or_eq_true_iff.mpr (Or.inr ih)

theorem scanAt_append_left (hAt : List Char → Bool)
    (hext : ∀ (cs e : List Char), hAt cs = true → hAt (cs ++ e) = true)
    (e : List Char) : ∀ {m : List Char}, scanAt hAt m = true → scanAt hAt (m ++ e) = true := by
  intro m h
  induction m with
  | nil => simp [scanAt] at h
  | cons c cs ih =>
    simp only [scanAt, List.cons_append] at h ⊢
    rcases Bool.or_eq_true_iff.mp h with h1 | h2
    · exact Bool.or_eq_true_iff.mpr (Or.inl (hext (c :: cs) e h1))
    · exact Bool.or_eq_true_iff.mpr (Or.inr (ih h2))

theorem one_le_countAt_of_scanAt (hAt : List Char → Bool) :
    ∀ {l : List Char}, scanAt hAt l = true → 1 ≤ countAt hAt l := by
  intro l h
  induction l with
  | nil => simp [scanAt] at h
  | cons c cs ih =>
    simp only [scanAt] at h
    simp only [countAt]
    rcases Bool.or_eq_true_iff.mp h with h1 | h2
    · rw [if_pos h1]; omega
    · have := ih h2; omega

theorem countAt_prepend_le (hAt : List Char → Bool) (a b : List Char) :
    countAt hAt b ≤ countAt hAt (a ++ b) := by
  induction a with
  | nil => simp
  | cons c a ih =>
    simp only [List.cons_append, countAt]
    have h := ih
    simp only [List.append_eq]
    omega

theorem scanAt_dropWs (hAt : List Char → Bool)
    (hstart : ∀ c cs, hAt (c :: cs) = true → jsWs c = false) :
    ∀ {l : List Char}, scanAt hAt l = true → scanAt hAt (l.dropWhile jsWs) = true := by
  intro l h
  induction l with
  | nil => simp [scanAt] at h
  | cons c cs ih =>
    by_cases hw : jsWs c
    · rw [List.dropWhile_cons, if_pos hw]
      apply ih
      simp only [scanAt] at h
      rcases Bool.or_eq_true_iff.mp h with h1 | h2
      · rw [hstart c cs h1] at hw; exact absurd hw (by simp)
      · exact h2
    · rw [List.dropWhile_cons, if_neg hw]
      exact h

theorem scanAt_all_ws (hAt : List Char → Bool) (hnil : hAt [] = false)
    (hws : ∀ (y w : List Char), (∀ c ∈ w, jsWs c = true) → hAt (y ++ w) = true → hAt y = true) :
    ∀ {w : List Char}, (∀ c ∈ w, jsWs c = true) → scanAt hAt w = false := by
  intro w hw
  induction w with
  | nil => simp [scanAt]
  | cons c cs ih =>
    simp only [scanAt, Bool.or_eq_false_iff]
    constructor
    · cases hcc : hAt (c :: cs)
      · rfl
      · have hx := hws [] (c :: cs) hw (by simpa using hcc)
        rw [hnil] at hx
        exact absurd hx (by simp)
    · exact ih (fun x hx => hw x (List.mem_cons_of_mem c hx))

theorem scanAt_ws_suffix (hAt : List Char → Bool)
    (hws : ∀ (y w : List Char), (∀ c ∈ w, jsWs c = true) → hAt (y ++ w) = true → hAt y = true)
    (hnil : hAt [] = false) {w : List Char} (hw : ∀ c ∈ w, jsWs c = true) :
    ∀ {m : List Char}, scanAt hAt (m ++ w) = true → scanAt hAt m = true := by
  intro m h
  induction m with
  | nil =>
    rw [List.nil_append] at h
    rw [scanAt_all_ws hAt hnil hws hw] at h
    exact absurd h (by simp)
  | cons c cs ih =>
    simp only [scanAt, List.cons_append] at h ⊢
    rcases Bool.or_eq_true_iff.mp h with h1 | h2
    · exact Bool.or_eq_true_iff.mpr (Or.inl (hws (c :: cs) w hw h1))
    · exact Bool.or_eq_true_iff.mpr (Or.inr (ih h2))

theorem noticeTitleThen_ws_suffix {y w : List Char} (hw : ∀ c ∈ w, jsWs c = true)
    (h : noticeTitleThen (y ++ w) = true) : noticeTitleThen y = true := by
  unfold noticeTitleThen at h ⊢
  rcases hcs : consumeCI "content source notice".data (y ++ w) with _ | rr
  · rw [hcs] at h; simp at h
  · rw [hcs] at h
    rcases consumeCI_split hcs with ⟨ra, h1, h2⟩ | ⟨p1, p2, hp, h1, h2⟩
    · rw [h1]
      cases ra with
      | nil => simp
      | cons c cs =>
        subst h2
        simpa using h
    · by_cases hp2 : p2 = []
      · subst hp2
        rw [List.append_nil] at hp
        rw [← hp] at h1
        rw [h1]
      · exfalso
        obtain ⟨lc, hlc⟩ : ∃ lc, p2.getLast? = some lc := by
          cases hpl : p2.getLast? with
          | none => exact absurd (List.getLast?_eq_none_iff.mp hpl) hp2
          | some a => exact ⟨a, rfl⟩
        have hlit : ("content source notice".data).getLast? = some 'e' := by decide
        have hfull : (p1 ++ p2).getLast? = some lc := by
          rw [List.getLast?_append, hlc]
          rfl
        rw [← hp, hlit] at hfull
        have hlc_e : 'e' = lc := Option.some.inj hfull
        have hmem : lc ∈ p2 := List.mem_of_getLast?_eq_some hlc
        rcases consumeCI_ws_mem h2 hw lc hmem with ⟨d, hd, he⟩
        rw [← hlc_e] at he
        have hd6 : d = ' ' ∨ d = '\t' ∨ d = '\n' ∨ d = '\r' ∨ d = Char.ofNat 11 ∨
            d = Char.ofNat 12 := by
          simp only [jsWs, Bool.or_eq_true, decide_eq_true_eq] at hd
          tauto
        rcases hd6 with rfl | rfl | rfl | rfl | rfl | rfl <;> exact absurd he (by decide)

theorem noticeHeaderAt_start {c : Char} {cs : List Char}
    (h : noticeHeaderAt (c :: cs) = true) : jsWs c = false := by
  rcases cs with _ | ⟨c2, rest⟩
  · simp [noticeHeaderAt] at h
  · simp only [noticeHeaderAt] at h
    rcases Bool.and_eq_true_iff.mp h with ⟨h12, _⟩
    rcases Bool.and_eq_true_iff.mp h12 with ⟨hc, _⟩
    have hc1 : c = '#' := by simpa using hc
    subst hc1
    decide

theorem noticeHeaderAt_ws_suffix :
    ∀ (y w : List Char), (∀ c ∈ w, jsWs c = true) → noticeHeaderAt (y ++ w) = true →
      noticeHeaderAt y = true := by
  intro y w hw h
  rcases y with _ | ⟨c1, _ | ⟨c2, rest⟩⟩
  · rw [List.nil_append] at h
    rcases w with _ | ⟨d1, _ | ⟨d2, rest⟩⟩
    · simp [noticeHeaderAt] at h
    · simp [noticeHeaderAt] at h
    · simp only [noticeHeaderAt] at h
      rcases Bool.and_eq_true_iff.mp h with ⟨h12, _⟩
      rcases Bool.and_eq_true_iff.mp h12 with ⟨hd, _⟩
      have hd1 : d1 = '#' := by simpa using hd
      have hws1 := hw d1 (List.mem_cons_self _ _)
      rw [hd1] at hws1
      exact absurd hws1 (by decide)
  · rw [List.cons_append, List.nil_append] at h
    rcases w with _ | ⟨d2, rest⟩
    · simp [noticeHeaderAt] at h
    · simp only [noticeHeaderAt] at h
      rcases Bool.and_eq_true_iff.mp h with ⟨h12, _⟩
      rcases Bool.and_eq_true_iff.mp h12 with ⟨_, hd2⟩
      have hd2e : d2 = '#' := by simpa using hd2
      have hws2 := hw d2 (List.mem_cons_self _ _)
      rw [hd2e] at hws2
      exact absurd hws2 (by decide)
  · simp only [noticeHeaderAt, List.cons_append] at h ⊢
    rcases Bool.and_eq_true_iff.mp h with ⟨h12, htt⟩
    refine Bool.and_eq_true_iff.mpr ⟨h12, ?_⟩
    rcases hdw : dropWs rest with _ | ⟨d, ds⟩
    · have hdw2 : dropWs (rest ++ w) = dropWs w := by
        unfold dropWs at hdw ⊢
        rw [List.dropWhile_append, hdw]
        rfl
      rw [hdw2] at htt
      have hwnil : dropWs w = [] := by
        unfold dropWs
        exact List.dropWhile_eq_nil_iff.mpr (fun c hc => hw c hc)
      rw [hwnil] at htt
      exact absurd htt (by decide)
    · have hdwe := dropWs_extend w hdw
      rw [hdwe] at htt
      exact noticeTitleThen_ws_suffix hw (by simpa using htt)

theorem testNotice_prepend (a : List Char) {b : List Char}
    (h : testContentSourceNotice b = true) : testContentSourceNotice (a ++ b) = true :=
  scanAt_prepend _ a h

theorem dropWhile_trim_decomp (l : List Char) :
    l.dropWhile jsWs =
      trimChars l ++ ((l.dropWhile jsWs).reverse.takeWhile jsWs).reverse := by
  have h0 : (l.dropWhile jsWs).reverse.takeWhile jsWs ++
      (l.dropWhile jsWs).reverse.dropWhile jsWs = (l.dropWhile jsWs).reverse :=
    List.takeWhile_append_dropWhile jsWs _
  have h1 : l.dropWhile jsWs =
      ((l.dropWhile jsWs).reverse.takeWhile jsWs ++
        (l.dropWhile jsWs).reverse.dropWhile jsWs).reverse := by
    rw [h0, List.reverse_reverse]
  rw [List.reverse_append] at h1
  exact h1

theorem trim_ws_suffix_all (l : List Char) :
    ∀ c ∈ ((l.dropWhile jsWs).reverse.takeWhile jsWs).reverse, jsWs c = true := by
  intro c hc
  rw [List.mem_reverse] at hc
  exact List.mem_takeWhile_imp hc

theorem testNotice_trim {l : List Char} (h : testContentSourceNotice l = true) :
    testContentSourceNotice (trimChars l) = true := by
  have hA : scanAt noticeHeaderAt (l.dropWhile jsWs) = true :=
    scanAt_dropWs _ (fun c cs hcs => noticeHeaderAt_start hcs) h
  rw [dropWhile_trim_decomp l] at hA
  exact scanAt_ws_suffix _ noticeHeaderAt_ws_suffix rfl (trim_ws_suffix_all l) hA

theorem one_le_countNotice_of_test {l : List Char}
    (h : testContentSourceNotice l = true) : 1 ≤ countNoticeMatches l :=
  one_le_countAt_of_scanAt _ h

theorem countNotice_prepend (a b : List Char) :
    countNoticeMatches b ≤ countNoticeMatches (a ++ b) :=
  countAt_prepend_le _ a b

theorem testNotice_block (n : List Char) :
    testContentSourceNotice (("\n\n## Content Source Notice\n" : String).data ++ n) = true :=
  rfl

theorem testNotice_appendNotice (notice : String) (b : List Char) :
    testContentSourceNotice (appendNoticeIfMissing true notice b) = true := by
  unfold appendNoticeIfMissing
  by_cases ht : testContentSourceNotice b
  · simp [ht]
  · have hb : testContentSourceNotice b = false := by
      cases hx : testContentSourceNotice b
      · rfl
      · exact absurd hx ht
    rw [hb]
    simp only [Bool.not_false, Bool.and_self, if_pos]
    have h1 := testNotice_block (notice.data ++ ("\n" : String).data)
    have h2 := testNotice_prepend b h1
    simpa [List.append_assoc] using h2

theorem hasSources_append_left (e : List Char) {m : List Char}
    (h : hasSourcesHeader m = true) : hasSourcesHeader (m ++ e) = true :=
  scanAt_append_left _ (fun _ e2 hcs => sourcesHeaderAt_extend e2 hcs) e h

theorem hasSources_prepend (a : List Char) {b : List Char}
    (h : hasSourcesHeader b = true) : hasSourcesHeader (a ++ b) = true :=
  scanAt_prepend _ a h

theorem hasSources_of_trim {l : List Char}
    (h : hasSourcesHeader (trimChars l) = true) : hasSourcesHeader l = true := by
  have h1 : hasSourcesHeader (l.dropWhile jsWs) = true := by
    rw [dropWhile_trim_decomp l]
    exact hasSources_append_left _ h
  have h2 : hasSourcesHeader (l.takeWhile jsWs ++ l.dropWhile jsWs) = true :=
    hasSources_prepend _ h1
  rw [List.takeWhile_append_dropWhile] at h2
  exact h2

theorem findSourcesHeader_none {l : List Char} (h : findSourcesHeader l = none) :
    hasSourcesHeader l = false := by
  induction l with
  | nil => rfl
  | cons c cs ih =>
    simp only [findSourcesHeader] at h
    by_cases hh : sourcesHeaderAt (c :: cs)
    · rw [if_pos hh] at h
      exact absurd h (by simp)
    · rw [if_neg hh] at h
      have h2 : findSourcesHeader cs = none := by
        cases hf : findSourcesHeader cs
        · rfl
        · rw [hf] at h; simp at h
      unfold hasSourcesHeader scanAt
      rw [Bool.or_eq_false_iff]
      constructor
      · cases hx : sourcesHeaderAt (c :: cs)
        · rfl
        · exact absurd hx hh
      · exact ih h2

theorem findSourcesHeader_take {l : List Char} {idx : ℕ}
    (h : findSourcesHeader l = some idx) : hasSourcesHeader (l.take idx) = false := by
  induction l generalizing idx with
  | nil => simp [findSourcesHeader] at h
  | cons c cs ih =>
    simp only [findSourcesHeader] at h
    by_cases hh : sourcesHeaderAt (c :: cs)
    · rw [if_pos hh] at h
      have hidx : idx = 0 := by
        have := Option.some.inj h
        omega
      subst hidx
      rfl
    · rw [if_neg hh] at h
      cases hf : findSourcesHeader cs with
      | none => rw [hf] at h; simp at h
      | some i =>
        rw [hf] at h
        have hidx : idx = i + 1 := by
          simp at h
          omega
        subst hidx
        simp only [List.take_succ_cons]
        unfold hasSourcesHeader scanAt
        rw [Bool.or_eq_false_iff]
        constructor
        · cases hca : sourcesHeaderAt (c :: List.take i cs)
          · rfl
          · exfalso
            have hext := sourcesHeaderAt_extend (cs.drop i) hca
            rw [List.cons_append, List.take_append_drop] at hext
            exact hh hext
        · exact ih hf

theorem strip_no_sources_header (text : List Char) :
    hasSourcesHeader (stripTrailingSourcesSection text) = false := by
  unfold stripTrailingSourcesSection
  cases hf : findSourcesHeader text with
  | none =>
    have h := findSourcesHeader_none hf
    cases hc : hasSourcesHeader (trimChars text)
    · rfl
    · have h2 := hasSources_of_trim hc
      rw [h] at h2
      exact absurd h2 (by simp)
  | some idx =>
    have h := findSourcesHeader_take hf
    cases hc : hasSourcesHeader (trimChars (text.take idx))
    · rfl
    · have h2 := hasSources_of_trim hc
      rw [h] at h2
      exact absurd h2 (by simp)

/-! ## Claim theorems -/

/-- C1: for every run of the validation swarm, the trust score equals
`clamp(100 − sum of applicable penalties, 0, 100)` with the penalty table
citation −25, recency −20 (only when mode is news or the internet fallback
was used), fact_check −40, tone −15; hence it is an integer in [0, 100]
and a deterministic function of the four agent statuses plus the
recency-applicability flag. -/
theorem C1_validation_swarm_trust_score (a : SwarmArgs) (th : ℤ) (calls : SwarmCalls) :
    (validation_swarm a th calls).trustScore =
      clamp (100 - specPenaltySum (recencyApplicable a)
        (validation_swarm a th calls).results.citation.status
        (validation_swarm a th calls).results.recency.status
        (validation_swarm a th calls).results.fact_check.status
        (validation_swarm a th calls).results.tone.status) 0 100 ∧
    0 ≤ (validation_swarm a th calls).trustScore ∧
    (validation_swarm a th calls).trustScore ≤ 100 := by
  simp only [validation_swarm]
  cases hA : recencyApplicable a <;>
    cases h1 : (parseAgentOutcome calls.citation "citation_agent_failed" "citation_agent_").status <;>
    cases h2 : (parseAgentOutcome calls.recency "recency_agent_failed" "recency_agent_").status <;>
    cases h3 : (parseAgentOutcome calls.factCheck "fact_check_agent_failed" "fact_check_agent_").status <;>
    cases h4 : (parseAgentOutcome calls.tone "tone_agent_failed" "tone_agent_").status <;>
    simp_all [specPenaltySum, clamp, normalizeAgentResult, skippedRecencyRaw]

/-- C4: the workflow decider satisfies `blocked = trustScore < threshold`
(default 80), `requiresReview = blocked or some agent failed`,
`status = review iff requiresReview else draft`, and is a pure function of
its tuple (re-running yields the same pair). -/
theorem C4_workflow_decider (th ts : ℤ) (ss : List AgentStatus) :
    ((workflowDecide th ts ss).blocked = true ↔ ts < th) ∧
    ((workflowDecide th ts ss).requiresReview = true ↔ (ts < th ∨ AgentStatus.fail ∈ ss)) ∧
    ((workflowDecide th ts ss).status = "review" ↔ (ts < th ∨ AgentStatus.fail ∈ ss)) ∧
    ((workflowDecide th ts ss).status = "draft" ↔ ¬(ts < th ∨ AgentStatus.fail ∈ ss)) ∧
    workflowDecide th ts ss = workflowDecide th ts ss ∧
    trustThresholdDefault = 80 := by
  have hany : (ss.any fun s => decide (s = .fail)) = true ↔ AgentStatus.fail ∈ ss := by
    rw [List.any_eq_true]
    constructor
    · rintro ⟨x, hx, hd⟩
      have hxf : x = .fail := of_decide_eq_true hd
      rwa [hxf] at hx
    · intro hmem
      exact ⟨.fail, hmem, by decide⟩
  unfold workflowDecide
  refine ⟨by simp, ?_, ?_, ?_, rfl, rfl⟩
  · simp only [Bool.or_eq_true, decide_eq_true_iff]
    rw [hany]
  · by_cases hr : (decide (ts < th) || ss.any fun s => decide (s = .fail)) = true
    · simp only [hr, if_pos]
      simp only [Bool.or_eq_true, decide_eq_true_iff] at hr
      rw [hany] at hr
      simpa using hr
    · simp only [if_neg hr]
      simp only [Bool.or_eq_true, decide_eq_true_iff] at hr
      rw [hany] at hr
      constructor
      · intro hcontra
        exact absurd hcontra (by decide)
      · intro hcontra
        exact absurd hcontra hr
  · by_cases hr : (decide (ts < th) || ss.any fun s => decide (s = .fail)) = true
    · simp only [hr, if_pos]
      simp only [Bool.or_eq_true, decide_eq_true_iff] at hr
      rw [hany] at hr
      constructor
      · intro hcontra
        exact absurd hcontra (by decide)
      · intro hcontra
        exact absurd hr hcontra
    · simp only [if_neg hr]
      simp only [Bool.or_eq_true, decide_eq_true_iff] at hr
      rw [hany] at hr
      simpa using hr

/-- C10: an absent, non-string or unrecognised `humanizeLevel` is treated
as `'standard'`; the humanize-level conjunct of the rewrite gate is false
exactly when the client explicitly sent `'off'`, so the full gate holds
iff a rewrite model is configured, the level is not the explicit
`'off'`, the content type is not `meta_tags` and more than 20 s of budget
remain. -/
theorem C10_humanize_level_default (raw : JsonField) (model ct : String) (e : ℤ) :
    humanizeLevelText raw ∈ validHumanizeLevels ∧
    humanizeLevelText JsonField.missing = "standard" ∧
    humanizeLevelText JsonField.nonString = "standard" ∧
    (∀ s : String, s ∉ validHumanizeLevels → humanizeLevelText (JsonField.str s) = "standard") ∧
    (humanizeLevelText raw = "off" ↔ raw = JsonField.str "off") ∧
    (shouldRewrite model (humanizeLevelText raw) ct e = true ↔
      (model ≠ "" ∧ raw ≠ JsonField.str "off" ∧ ct ≠ "meta_tags" ∧ remainingMs e > 20000)) := by
  have hmem : humanizeLevelText raw ∈ validHumanizeLevels := by
    cases raw with
    | missing => decide
    | nonString => decide
    | str s =>
      simp only [humanizeLevelText]
      by_cases hs : validHumanizeLevels.contains s
      · rw [if_pos hs]
        simpa [validHumanizeLevels] using hs
      · rw [if_neg hs]
        decide
  have hdef : ∀ s : String, s ∉ validHumanizeLevels →
      humanizeLevelText (JsonField.str s) = "standard" := by
    intro s hs
    simp only [humanizeLevelText]
    rw [if_neg]
    intro hc
    exact hs (by simpa [validHumanizeLevels] using hc)
  have hoff : humanizeLevelText raw = "off" ↔ raw = JsonField.str "off" := by
    cases raw with
    | missing => simp [humanizeLevelText]
    | nonString => simp [humanizeLevelText]
    | str s =>
      simp only [humanizeLevelText, JsonField.str.injEq]
      by_cases hso : s = "off"
      · subst hso
        simp [validHumanizeLevels]
      · by_cases hs : validHumanizeLevels.contains s
        · rw [if_pos hs]
        · rw [if_neg hs]
          simp [hso]
  refine ⟨hmem, rfl, rfl, hdef, hoff, ?_⟩
  unfold shouldRewrite
  simp only [Bool.and_eq_true, decide_eq_true_iff]
  constructor
  · rintro ⟨⟨⟨hm, hl⟩, hct⟩, ht⟩
    exact ⟨hm, fun hr => hl (hoff.mpr hr), hct, ht⟩
  · rintro ⟨hm, hr, hct, ht⟩
    exact ⟨⟨⟨hm, fun hl => hr (hoff.mp hl)⟩, hct⟩, ht⟩

/-- C10 witness: an unrecognised level maps to `'standard'`; with level
`'off'` the gate is closed; with an absent level and all other gates open
the gate is open. -/
theorem C10_humanize_level_default_witness :
    humanizeLevelText (JsonField.str "bogus") = "standard" ∧
    shouldRewrite "model-x" (humanizeLevelText (JsonField.str "off")) "long_article" 0 = false ∧
    shouldRewrite "model-x" (humanizeLevelText JsonField.missing) "long_article" 0 = true := by
  refine ⟨(C10_humanize_level_default (JsonField.str "bogus") "model-x" "long_article" 0).2.2.2.1
      "bogus" (by decide), ?_, ?_⟩
  · have h := (C10_humanize_level_default (JsonField.str "off") "model-x" "long_article" 0).2.2.2.2.2
    cases hx : shouldRewrite "model-x" (humanizeLevelText (JsonField.str "off")) "long_article" 0
    · rfl
    · have h2 := h.mp hx
      exact absurd rfl h2.2.1
  · exact (C10_humanize_level_default JsonField.missing "model-x" "long_article" 0).2.2.2.2.2.mpr
      ⟨by decide, by decide, by decide, by decide⟩

/-- A concrete all-pass swarm output used to exhibit the validation
budget gate discarding a run. -/
def demoSwarmPass : SwarmOutput :=
  ⟨⟨⟨.pass, [], 1⟩, ⟨.pass, [], 1⟩, ⟨.pass, [], 1⟩, ⟨.pass, [], 1⟩⟩, 100, [], []⟩

/-- C3 counterexample: at 80 s elapsed the 85 s budget is not exceeded,
yet the validation stage discards the swarm run and substitutes the
trust-score-0 skip record — refuting "while the budget has not been
exceeded the swarm is run". -/
theorem C3_budget_counterexample :
    (80000 : ℤ) ≤ 85000 ∧
    validationStage 80000 demoSwarmPass = skippedSwarmOutput ∧
    demoSwarmPass.trustScore = 100 ∧
    skippedSwarmOutput.trustScore = 0 := by
  exact ⟨by decide, rfl, rfl, rfl⟩

/-- C3 amended: the swarm is skipped exactly when at most 15 s of the
85 s budget remain (elapsed ≥ 70 s) — in particular whenever the budget
is exceeded — and the skip record carries trustScore 0 with all four
agents failed under a synthetic skipped issue; with more than 15 s
remaining the swarm result is used. -/
theorem C3_validation_budget (elapsed : ℤ) (run : SwarmOutput) :
    (85000 < elapsed → validationStage elapsed run = skippedSwarmOutput) ∧
    (70000 ≤ elapsed → validationStage elapsed run = skippedSwarmOutput) ∧
    (elapsed < 70000 → validationStage elapsed run = run) ∧
    skippedSwarmOutput.trustScore = 0 ∧
    skippedSwarmOutput.results.citation = ⟨.fail, ["validation_skipped_time_budget"], 0⟩ ∧
    skippedSwarmOutput.results.recency = ⟨.fail, ["validation_skipped_time_budget"], 0⟩ ∧
    skippedSwarmOutput.results.fact_check = ⟨.fail, ["validation_skipped_time_budget"], 0⟩ ∧
    skippedSwarmOutput.results.tone = ⟨.fail, ["validation_skipped_time_budget"], 0⟩ := by
  refine ⟨?_, ?_, ?_, rfl, rfl, rfl, rfl, rfl⟩
  · intro h
    unfold validationStage remainingMs
    rw [if_neg]
    omega
  · intro h
    unfold validationStage remainingMs
    rw [if_neg]
    omega
  · intro h
    unfold validationStage remainingMs
    rw [if_pos]
    omega

/-- C3 witness: the gate at 90 s (budget exceeded), 72 s (budget not
exceeded but under 15 s remaining) and 60 s (swarm runs). -/
theorem C3_validation_budget_witness :
    validationStage 90000 demoSwarmPass = skippedSwarmOutput ∧
    validationStage 72000 demoSwarmPass = skippedSwarmOutput ∧
    validationStage 60000 demoSwarmPass = demoSwarmPass :=
  ⟨(C3_validation_budget 90000 demoSwarmPass).1 (by decide),
   (C3_validation_budget 72000 demoSwarmPass).2.1 (by decide),
   (C3_validation_budget 60000 demoSwarmPass).2.2.1 (by decide)⟩

/-- C6 counterexample: an error text containing `shutdown` is NOT retried
when it also contains the cold-start marker `cohere_unavailable` — the
cold-start check runs first — refuting "for every error whose text
contains shutdown ... it retries". -/
theorem C6_retry_counterexample :
    includesStr (lowerStr "cohere_unavailable: worker shutdown") "shutdown" = true ∧
    isRetryableEdgeFunctionError "cohere_unavailable: worker shutdown" = false ∧
    (invokeEdgeFunctionWithRetry "query-docs"
      (fun _ => .fnError "cohere_unavailable: worker shutdown") 2).attempts = 1 := by
  exact ⟨rfl, rfl, rfl⟩

theorem retryLoop_const_fail (fn m : String)
    (hretry : isRetryableEdgeFunctionError m = true) (maxA : ℕ) :
    ∀ (fuel attempt : ℕ), 1 ≤ attempt → attempt + fuel = maxA + 1 → 1 ≤ fuel →
      retryLoop fn (fun _ => .fnError m) maxA fuel attempt =
        ⟨false, some m, maxA, (List.range (maxA - attempt)).map (fun i => 250 * (attempt + i))⟩ := by
  intro fuel
  induction fuel with
  | zero => intro attempt h1 h2 h3; omega
  | succ f ih =>
    intro attempt h1 h2 _
    simp only [retryLoop]
    by_cases hlt : attempt < maxA
    · rw [if_pos ⟨hlt, hretry⟩]
      have hf : 1 ≤ f := by omega
      rw [ih (attempt + 1) (by omega) (by omega) hf]
      have hrange : maxA - attempt = (maxA - (attempt + 1)) + 1 := by omega
      rw [hrange, List.range_succ_eq_map]
      simp only [List.map_cons, List.map_map, RetryResult.mk.injEq, true_and, Nat.add_zero]
      have hmc : List.map ((fun i => 250 * (attempt + i)) ∘ Nat.succ)
            (List.range (maxA - (attempt + 1))) =
          List.map (fun i => 250 * (attempt + 1 + i)) (List.range (maxA - (attempt + 1))) := by
        apply List.map_congr_left
        intro i _
        simp only [Function.comp_apply]
        omega
      rw [hmc]
    · rw [if_neg (by intro hc; exact hlt hc.1)]
      have heq : attempt = maxA := by omega
      subst heq
      simp

/-- C6 amended: the retry gateway reproduces the policy table with the
cold-start marker taking precedence: any text containing
`cohere_unavailable` is never retried; a text free of that marker and
containing any of the retryable markers (shutdown, earlydrop, `_timeout`,
"edge function"+"failed", fetch failed / econnreset / etimedout / socket,
503/504) is retried with backoff 250 ms × attempt until the bounded
attempt count is exhausted; in all cases a tagged failure value is
returned rather than an exception thrown. -/
theorem C6_retry_policy (fn m : String) (n : ℕ) (maxA : ℤ) :
    (includesStr (lowerStr m) "cohere_unavailable" = true →
      isRetryableEdgeFunctionError m = false) ∧
    (includesStr (lowerStr m) "cohere_unavailable" = false →
      (includesStr (lowerStr m) "shutdown" = true ∨
       includesStr (lowerStr m) "earlydrop" = true ∨
       includesStr (lowerStr m) "_timeout" = true ∨
       (includesStr (lowerStr m) "edge function" = true ∧
         includesStr (lowerStr m) "failed" = true) ∨
       includesStr (lowerStr m) "fetch failed" = true ∨
       includesStr (lowerStr m) "econnreset" = true ∨
       includesStr (lowerStr m) "etimedout" = true ∨
       includesStr (lowerStr m) "socket" = true ∨
       includesStr (lowerStr m) "503" = true ∨
       includesStr (lowerStr m) "504" = true) →
      isRetryableEdgeFunctionError m = true) ∧
    (isRetryableEdgeFunctionError m = false →
      invokeEdgeFunctionWithRetry fn (fun _ => .fnError m) maxA =
        ⟨false, some m, 1, []⟩) ∧
    (isRetryableEdgeFunctionError m = true → 1 ≤ n →
      invokeEdgeFunctionWithRetry fn (fun _ => .fnError m) (n : ℤ) =
        ⟨false, some m, n, (List.range (n - 1)).map (fun i => 250 * (1 + i))⟩) := by
  refine ⟨?_, ?_, ?_, ?_⟩
  · intro h
    have hne : lowerStr m ≠ "" := by
      intro h0
      rw [h0] at h
      exact absurd h (by decide)
    simp only [isRetryableEdgeFunctionError]
    rw [if_neg hne, if_pos h]
  · intro hcoh hdisj
    have hne : lowerStr m ≠ "" := by
      intro h0
      rw [h0] at hdisj
      rcases hdisj with h | h | h | ⟨h, _⟩ | h | h | h | h | h | h <;> exact absurd h (by decide)
    simp only [isRetryableEdgeFunctionError]
    rw [if_neg hne, if_neg (by rw [hcoh]; simp)]
    by_cases h3 : includesStr (lowerStr m) "_timeout" = true
    · rw [if_pos h3]
    · rw [if_neg h3]
      by_cases h2 : includesStr (lowerStr m) "earlydrop" = true
      · rw [if_pos h2]
      · rw [if_neg h2]
        by_cases h1 : includesStr (lowerStr m) "shutdown" = true
        · rw [if_pos h1]
        · rw [if_neg h1]
          by_cases h4 : (includesStr (lowerStr m) "edge function" &&
              includesStr (lowerStr m) "failed") = true
          · rw [if_pos h4]
          · rw [if_neg h4]
            by_cases h5 : includesStr (lowerStr m) "fetch failed" = true
            · rw [if_pos h5]
            · rw [if_neg h5]
              by_cases h6 : includesStr (lowerStr m) "econnreset" = true
              · rw [if_pos h6]
              · rw [if_neg h6]
                by_cases h7 : includesStr (lowerStr m) "etimedout" = true
                · rw [if_pos h7]
                · rw [if_neg h7]
                  by_cases h8 : includesStr (lowerStr m) "socket" = true
                  · rw [if_pos h8]
                  · rw [if_neg h8]
                    by_cases h9 : (includesStr (lowerStr m) "504" ||
                        includesStr (lowerStr m) "503") = true
                    · rw [if_pos h9]
                    · exfalso
                      simp only [Bool.or_eq_true] at h9
                      simp only [Bool.and_eq_true] at h4
                      rcases hdisj with h | h | h | ⟨ha, hb⟩ | h | h | h | h | h | h
                      · exact h1 h
                      · exact h2 h
                      · exact h3 h
                      · exact h4 ⟨ha, hb⟩
                      · exact h5 h
                      · exact h6 h
                      · exact h7 h
                      · exact h8 h
                      · exact h9 (Or.inr h)
                      · exact h9 (Or.inl h)
  · intro h
    have hmax : ∃ k, (max 1 maxA).toNat = k + 1 := by
      have h1 : 1 ≤ max 1 maxA := le_max_left 1 maxA
      refine ⟨(max 1 maxA).toNat - 1, ?_⟩
      omega
    rcases hmax with ⟨k, hk⟩
    unfold invokeEdgeFunctionWithRetry
    rw [hk]
    simp only [retryLoop]
    rw [if_neg]
    intro hc
    rw [h] at hc
    exact absurd hc.2 (by simp)
  · intro hretry hn
    unfold invokeEdgeFunctionWithRetry
    have hmaxn : (max 1 (n : ℤ)).toNat = n := by omega
    rw [hmaxn]
    have := retryLoop_const_fail fn m hretry n n 1 (by omega) (by omega) (by omega)
    rw [this]

/-- C6 witness: a retryable failure exhausts three attempts with waits
250 ms and 500 ms; a cold-start failure returns after one attempt. -/
theorem C6_retry_policy_witness :
    isRetryableEdgeFunctionError "Edge Function shutdown" = true ∧
    invokeEdgeFunctionWithRetry "query-docs"
      (fun _ => .fnError "Edge Function shutdown") (3 : ℤ) =
      ⟨false, some "Edge Function shutdown", 3, [250, 500]⟩ ∧
    invokeEdgeFunctionWithRetry "embed-docs"
      (fun _ => .fnError "cohere_unavailable") (3 : ℤ) =
      ⟨false, some "cohere_unavailable", 1, []⟩ := by
  refine ⟨?_, ?_, ?_⟩
  · exact (C6_retry_policy "query-docs" "Edge Function shutdown" 3 3).2.1 rfl (Or.inl rfl)
  · have h := (C6_retry_policy "query-docs" "Edge Function shutdown" 3 3).2.2.2 rfl (by decide)
    rw [show ((3 : ℕ) : ℤ) = (3 : ℤ) from rfl] at h
    rw [h]
    rfl
  · exact (C6_retry_policy "embed-docs" "cohere_unavailable" 1 3).2.2.1 rfl

/-- C7: the evidence-verifier probe marks a URL as existing exactly when
the response status is in 200–399 or is 401/403/405/429; every other
status, every network failure, and every non-normalizable or non-http(s)
URL marks it invalid; on success the redirect-resolved final URL is
returned (re-normalized, falling back to the probed URL). -/
theorem C7_check_url_exists (parseURL : String → Option ParsedUrl)
    (fetchResult : Option FetchResponse) (url : String) :
    ((checkUrlExists parseURL fetchResult url).ok = true ↔
      (normalizeUrlString parseURL url ≠ "" ∧
       ∃ res, fetchResult = some res ∧
         ((200 ≤ res.status ∧ res.status < 400) ∨ res.status = 401 ∨ res.status = 403 ∨
          res.status = 405 ∨ res.status = 429))) ∧
    (fetchResult = none → (checkUrlExists parseURL fetchResult url).ok = false) ∧
    (normalizeUrlString parseURL url = "" →
      checkUrlExists parseURL fetchResult url = ⟨false, "", none⟩) ∧
    (jsTrim url ≠ "" → parseURL (urlCandidate url) = none →
      normalizeUrlString parseURL url = "") ∧
    (∀ rec, parseURL (urlCandidate url) = some rec →
      rec.protocol ≠ "http:" → rec.protocol ≠ "https:" →
      normalizeUrlString parseURL url = "") ∧
    (∀ res, fetchResult = some res → normalizeUrlString parseURL url ≠ "" →
      (checkUrlExists parseURL fetchResult url).url =
        (let fu := normalizeUrlString parseURL
            (if res.url = "" then normalizeUrlString parseURL url else res.url)
         if fu = "" then normalizeUrlString parseURL url else fu)) := by
  refine ⟨?_, ?_, ?_, ?_, ?_, ?_⟩
  · unfold checkUrlExists
    by_cases hn : normalizeUrlString parseURL url = ""
    · rw [if_pos hn]
      simp [hn]
    · rw [if_neg hn]
      cases fetchResult with
      | none => simp
      | some res =>
        simp only [Option.some.injEq]
        constructor
        · intro h
          refine ⟨hn, res, rfl, ?_⟩
          unfold checkOkStatus at h
          simp only [Bool.or_eq_true, Bool.and_eq_true, decide_eq_true_iff, beq_iff_eq] at h
          tauto
        · rintro ⟨_, res2, hres2, h⟩
          subst hres2
          unfold checkOkStatus
          simp only [Bool.or_eq_true, Bool.and_eq_true, decide_eq_true_iff, beq_iff_eq]
          tauto
  · intro h
    subst h
    unfold checkUrlExists
    by_cases hn : normalizeUrlString parseURL url = ""
    · rw [if_pos hn]
    · rw [if_neg hn]
  · intro h
    unfold checkUrlExists
    rw [if_pos h]
  · intro ht hp
    unfold normalizeUrlString
    rw [if_neg ht, hp]
  · intro rec hp hh hhs
    unfold normalizeUrlString
    by_cases ht : jsTrim url = ""
    · rw [if_pos ht]
    · rw [if_neg ht, hp]
      show (if (decide (rec.protocol ≠ "http:") && decide (rec.protocol ≠ "https:")) = true
          then "" else rec.asString) = ""
      rw [if_pos (by simp only [Bool.and_eq_true, decide_eq_true_iff, ne_eq]; exact ⟨hh, hhs⟩)]
  · intro res hres hn
    subst hres
    unfold checkUrlExists
    rw [if_neg hn]

/-- C7 witness: a 200 response on a parsable https URL is marked existing
with the normalized final URL; an unparsable URL is marked invalid with
empty URL; a 404 is marked invalid; a network failure is marked invalid. -/
theorem C7_check_url_exists_witness :
    (checkUrlExists (fun s => some ⟨"https:", s⟩) (some ⟨200, ""⟩) "example.com/page").ok
      = true ∧
    checkUrlExists (fun _ => none) (some ⟨200, ""⟩) "%%bad%%" = ⟨false, "", none⟩ ∧
    ((checkUrlExists (fun s => some ⟨"https:", s⟩) (some ⟨404, ""⟩) "example.com/page").ok
      = false) ∧
    ((checkUrlExists (fun s => some ⟨"https:", s⟩) none "example.com/page").ok = false) := by
  refine ⟨?_, ?_, ?_, ?_⟩
  · exact (C7_check_url_exists (fun s => some ⟨"https:", s⟩) (some ⟨200, ""⟩)
      "example.com/page").1.mpr ⟨by decide, ⟨200, ""⟩, rfl, by decide⟩
  · exact (C7_check_url_exists (fun _ => none) (some ⟨200, ""⟩) "%%bad%%").2.2.1 (by decide)
  · cases hx : (checkUrlExists (fun s => some ⟨"https:", s⟩) (some ⟨404, ""⟩)
        "example.com/page").ok
    · rfl
    · have h := (C7_check_url_exists (fun s => some ⟨"https:", s⟩) (some ⟨404, ""⟩)
        "example.com/page").1.mp hx
      rcases h with ⟨_, res, hres, hst⟩
      have : res = ⟨404, ""⟩ := by injection hres with h2; exact h2.symm
      subst this
      simp at hst
  · exact (C7_check_url_exists (fun s => some ⟨"https:", s⟩) none "example.com/page").2.1 rfl

theorem charsStartWith_append_self (p r : List Char) :
    charsStartWith p (p ++ r) = true := by
  induction p with
  | nil => rfl
  | cons c cs ih =>
    simp only [List.cons_append, charsStartWith, List.append_eq]
    rw [ih]
    simp

theorem generationLoop_trace (result : ℕ → Except String String) :
    ∀ (models : List String) (i : ℕ) (le : String) (c : ExtCall),
      c ∈ (generationLoop result models i le).2.2 → ∃ m, c = ExtCall.generationCall m := by
  intro models
  induction models with
  | nil => intro i le c hc; simp [generationLoop] at hc
  | cons m rest ih =>
    intro i le c hc
    simp only [generationLoop] at hc
    cases hres : result i with
    | error reason =>
      rw [hres] at hc
      simp only [List.mem_cons] at hc
      rcases hc with rfl | hc
      · exact ⟨m, rfl⟩
      · exact ih (i + 1) reason c hc
    | ok text =>
      rw [hres] at hc
      simp only [] at hc
      by_cases ht : text = ""
      · rw [if_pos ht] at hc
        simp only [List.mem_cons] at hc
        rcases hc with rfl | hc
        · exact ⟨m, rfl⟩
        · exact ih (i + 1) le c hc
      · rw [if_neg ht] at hc
        simp only [List.mem_cons, List.not_mem_nil, or_false] at hc
        subst hc
        exact ⟨m, rfl⟩

theorem rewritePass_trace {assemble : String → List Char} {gate : Bool} {tag : String}
    {res : Except String String} {prev : List Char × Bool} {c : ExtCall}
    (hc : c ∈ (rewritePass assemble gate tag res prev).2.2) : c = ExtCall.rewriteCall tag := by
  unfold rewritePass at hc
  cases gate with
  | false => simp at hc
  | true =>
    cases res with
    | error e =>
      simp at hc
      exact hc
    | ok t =>
      by_cases ht : t = ""
      · simp [ht] at hc
        exact hc
      · simp [ht] at hc
        exact hc

theorem rewritePass_body (assemble : String → List Char) (gate : Bool) (tag : String)
    (res : Except String String) (prev : List Char × Bool) :
    (rewritePass assemble gate tag res prev).1 = prev.1 ∨
    ∃ s, (rewritePass assemble gate tag res prev).1 = assemble s := by
  unfold rewritePass
  cases gate with
  | false => exact Or.inl rfl
  | true =>
    cases res with
    | error e => exact Or.inl rfl
    | ok t =>
      by_cases ht : t = ""
      · left
        simp [ht]
      · right
        exact ⟨t, by simp [ht]⟩

theorem finalizeBody_assembled (env : RouteEnv) (ct : String) (humRaw : JsonField)
    (cits : List Citation) (ifu : Bool) (o : FinalizeOracle) :
    ∃ draft : String, (finalizeBody env ct humRaw cits ifu o).1 =
      assembleBody ifu (contentSourceNoticeText ifu cits) cits draft := by
  unfold finalizeBody
  simp only []
  set A := assembleBody ifu (contentSourceNoticeText ifu cits) cits with hA
  set g1 := shouldRewrite env.humanizeContentModel (humanizeLevelText humRaw) ct
    o.elapsedAtRewriteGate with hg1
  set s1 := rewritePass A g1 "rewrite_standard" o.rewrite1 (A (finalizeGen env o).1, false)
    with hs1
  set g2 := (g1 && humanizeLevelText humRaw == "strong" &&
    decide (remainingMs o.elapsedAtStrongGate > 20000)) with hg2
  rcases rewritePass_body A g2 "rewrite_strong" o.rewrite2 (s1.1, s1.2.1) with h2 | ⟨t2, h2⟩
  · rcases rewritePass_body A g1 "rewrite_standard" o.rewrite1 (A (finalizeGen env o).1, false)
        with h1 | ⟨t1, h1⟩
    · refine ⟨(finalizeGen env o).1, ?_⟩
      rw [h2]
      rw [← hs1] at h1
      exact h1
    · refine ⟨t1, ?_⟩
      rw [h2]
      rw [← hs1] at h1
      exact h1
  · exact ⟨t2, h2⟩

theorem finalizeBody_trace {env : RouteEnv} {ct : String} {humRaw : JsonField}
    {cits : List Citation} {ifu : Bool} {o : FinalizeOracle} {c : ExtCall}
    (hc : c ∈ (finalizeBody env ct humRaw cits ifu o).2.2) :
    c = ExtCall.rewriteCall "rewrite_standard" ∨ c = ExtCall.rewriteCall "rewrite_strong" := by
  unfold finalizeBody at hc
  simp only [List.mem_append] at hc
  rcases hc with hc | hc
  · exact Or.inl (rewritePass_trace hc)
  · exact Or.inr (rewritePass_trace hc)

theorem finalizeStage_trace {env : RouteEnv} {mode ct : String} {humRaw : JsonField}
    {cits : List Citation} {ifu : Bool} {warns : List String} {o : FinalizeOracle}
    {c : ExtCall} (hc : c ∈ (finalizeStage env mode ct humRaw cits ifu warns o).2) :
    (∃ m, c = ExtCall.generationCall m) ∨ (∃ s, c = ExtCall.rewriteCall s) ∨
      c = ExtCall.validationCall := by
  unfold finalizeStage at hc
  by_cases hg : (finalizeGen env o).1 = ""
  · rw [if_pos hg] at hc
    exact Or.inl (generationLoop_trace o.genResult _ 0 "" c hc)
  · rw [if_neg hg] at hc
    simp only [List.mem_append] at hc
    rcases hc with (hc | hc) | hc
    · exact Or.inl (generationLoop_trace o.genResult _ 0 "" c hc)
    · rcases finalizeBody_trace hc with h | h
      · exact Or.inr (Or.inl ⟨_, h⟩)
      · exact Or.inr (Or.inl ⟨_, h⟩)
    · refine Or.inr (Or.inr ?_)
      by_cases hv : remainingMs o.elapsedAtValidationGate > 15000
      · rw [if_pos hv] at hc
        simpa using hc
      · rw [if_neg hv] at hc
        simp at hc

theorem finalizeStage_ok_inv {env : RouteEnv} {mode ct : String} {humRaw : JsonField}
    {cits : List Citation} {ifu : Bool} {warns : List String} {o : FinalizeOracle}
    {p : SuccessPayload}
    (h : (finalizeStage env mode ct humRaw cits ifu warns o).1 = .ok p) :
    p = finalizeDecision env mode ifu warns
      (finalizeBody env ct humRaw cits ifu o).2.1
      (finalizeSwarm env mode ifu o)
      (finalizeBody env ct humRaw cits ifu o).1 := by
  unfold finalizeStage at h
  by_cases hg : (finalizeGen env o).1 = ""
  · rw [if_pos hg] at h
    simp at h
  · rw [if_neg hg] at h
    have h2 : RouteOutcome.ok (finalizeDecision env mode ifu warns
        (finalizeBody env ct humRaw cits ifu o).2.1 (finalizeSwarm env mode ifu o)
        (finalizeBody env ct humRaw cits ifu o).1) = RouteOutcome.ok p := h
    injection h2 with h3
    exact h3.symm

theorem enumFrom_map_getD (d : Citation) (f : ℕ → Citation → List Char) :
    ∀ (l : List Citation) (n : ℕ),
      (List.enumFrom n l).map (fun p => f p.1 p.2) =
        (List.range l.length).map (fun k => f (n + k) (l.getD k d)) := by
  intro l
  induction l with
  | nil => intro n; rfl
  | cons a l ih =>
    intro n
    simp only [List.enumFrom, List.map_cons, List.length_cons, List.range_succ_eq_map,
      List.map_map]
    rw [ih (n + 1)]
    congr 1
    apply List.map_congr_left
    intro k _
    simp only [Function.comp_apply, List.getD_cons_succ]
    have hx : n + 1 + k = n + (k + 1) := by omega
    rw [hx]

/-- C8: the model draft is stripped at the first emitted
Sources/References heading (the stripped draft contains no such heading),
and the rendered sources section is a function of the verified citation
list alone: the fixed no-sources line when it is empty, otherwise one
line per citation, in list order, numbered from `[1]`. -/
theorem C8_canonical_sources (draft : String) (cits : List Citation) (i : ℕ) (c : Citation) :
    hasSourcesHeader (stripTrailingSourcesSection draft.data) = false ∧
    formatSourcesSection [] =
      ("\n\n## Sources / References\nNo sources were retrieved.\n" : String).data ∧
    (cits ≠ [] →
      formatSourcesSection cits =
        ("\n\n## Sources / References\n" : String).data ++
          List.intercalate ("\n" : String).data
            ((List.range cits.length).map fun k =>
              formatCitationLine k (cits.getD k ⟨"", "", ""⟩)) ++
          ("\n" : String).data) ∧
    charsStartWith (("[" ++ Nat.repr (i + 1) ++ "] " : String).data)
      (formatCitationLine i c) = true ∧
    assembleBody false "" cits draft =
      stripTrailingSourcesSection draft.data ++ formatSourcesSection cits := by
  refine ⟨strip_no_sources_header draft.data, rfl, ?_, ?_, rfl⟩
  · intro hne
    unfold formatSourcesSection
    rw [if_neg hne]
    have he : cits.enum = List.enumFrom 0 cits := rfl
    rw [he, enumFrom_map_getD ⟨"", "", ""⟩ (fun k c2 => formatCitationLine k c2) cits 0]
    have h2 : (List.range cits.length).map
          (fun k => formatCitationLine (0 + k) (cits.getD k ⟨"", "", ""⟩)) =
        (List.range cits.length).map
          (fun k => formatCitationLine k (cits.getD k ⟨"", "", ""⟩)) := by
      apply List.map_congr_left
      intro k _
      rw [Nat.zero_add]
    rw [h2]
    rfl
  · unfold formatCitationLine
    exact charsStartWith_append_self _ _

/-- C8 witness: the enumeration shape at a concrete two-citation list. -/
theorem C8_canonical_sources_witness :
    formatSourcesSection [⟨"T1", "https://a.example", "S"⟩, ⟨"", "", "S"⟩] =
      ("\n\n## Sources / References\n" : String).data ++
        List.intercalate ("\n" : String).data
          ((List.range ([⟨"T1", "https://a.example", "S"⟩, ⟨"", "", "S"⟩] :
              List Citation).length).map fun k =>
            formatCitationLine k
              (([⟨"T1", "https://a.example", "S"⟩, ⟨"", "", "S"⟩] :
                List Citation).getD k ⟨"", "", ""⟩)) ++
        ("\n" : String).data :=
  (C8_canonical_sources "draft" [⟨"T1", "https://a.example", "S"⟩, ⟨"", "", "S"⟩] 0
    ⟨"", "", ""⟩).2.2.1 (by simp)

theorem buildGenerationNotice_ne_nil (a b : String) (r : List Char) :
    buildGenerationNotice a b ++ r ≠ [] := by
  intro hc
  unfold buildGenerationNotice at hc
  simp only [List.append_assoc, List.append_eq_nil] at hc
  have hx := hc.1
  have hy : ("## Generation Notice\nContent source: " : String).data ≠ [] := by decide
  exact hy hx

/-- C5: whenever the finalize stage succeeds, the persisted output body
(`outputForDb`) is the full non-empty final body; when blocked the
client-facing body is withheld and the full body is returned only as
`review_body`; when not blocked the client body is the full body and
`review_body` is empty. -/
theorem C5_blocked_output (env : RouteEnv) (mode ct : String) (humRaw : JsonField)
    (cits : List Citation) (ifu : Bool) (warns : List String) (o : FinalizeOracle)
    (p : SuccessPayload)
    (h : (finalizeStage env mode ct humRaw cits ifu warns o).1 = .ok p) :
    p.dbBody ≠ [] ∧
    (p.blocked = true → p.clientBody = [] ∧ p.reviewBody = p.dbBody) ∧
    (p.blocked = false → p.clientBody = p.dbBody ∧ p.reviewBody = []) := by
  have hp := finalizeStage_ok_inv h
  subst hp
  unfold finalizeDecision
  simp only []
  refine ⟨?_, ?_, ?_⟩
  · exact buildGenerationNotice_ne_nil _ _ _
  · intro hb
    simp [hb]
  · intro hb
    simp [hb]

/-- C9 counterexample support: C9's amended statement and the finalize
witnesses share this payload extractor (dummy payload on error). -/
def payloadOf (r : RouteOutcome) : SuccessPayload :=
  match r with
  | .ok p => p
  | .httpError _ _ =>
    ⟨[], [], [], false, false, "", 0,
     ⟨⟨.fail, [], 0⟩, ⟨.fail, [], 0⟩, ⟨.fail, [], 0⟩, ⟨.fail, [], 0⟩⟩, false, false, []⟩

/-- Witness environment: primary model only, no rewrite model, default
trust threshold 80. -/
def envW : RouteEnv := ⟨"model-a", "", "", 80, none⟩

/-- A passing agent payload. -/
def agentPassRaw : AgentRawJson := ⟨true, [], some 1⟩

/-- Four passing agent calls. -/
def swarmCallsPassW : SwarmCalls :=
  ⟨.ok (some agentPassRaw) "", .ok (some agentPassRaw) "", .ok (some agentPassRaw) "",
   .ok (some agentPassRaw) ""⟩

/-- Agent calls with a failing fact-check agent. -/
def swarmCallsFactFailW : SwarmCalls :=
  ⟨.ok (some agentPassRaw) "", .ok (some agentPassRaw) "",
   .ok (some ⟨false, ["unsupported claim"], some 1⟩) "", .ok (some agentPassRaw) ""⟩

/-- A finalize oracle: one successful generation, rewrites unavailable,
all elapsed gates comfortably inside the budget. -/
def finOracleW (calls : SwarmCalls) (draft : String) : FinalizeOracle :=
  { genResult := fun _ => .ok draft
    elapsedAtRewriteGate := 1000
    rewrite1 := .error "not_configured"
    elapsedAtStrongGate := 1000
    rewrite2 := .error "not_configured"
    elapsedAtValidationGate := 1000
    swarmCalls := calls }

/-- A passing news-mode run of the finalize stage. -/
def c5RunPass : RouteOutcome :=
  (finalizeStage envW "news" "long_article" (JsonField.str "standard")
    [⟨"T", "https://a.example", "S"⟩] false []
    (finOracleW swarmCallsPassW "# Title\nBody.")).1

/-- The same run with a failing fact-check agent (trust 60 < 80). -/
def c5RunBlocked : RouteOutcome :=
  (finalizeStage envW "news" "long_article" (JsonField.str "standard")
    [⟨"T", "https://a.example", "S"⟩] false []
    (finOracleW swarmCallsFactFailW "# Title\nBody.")).1

/-- C5 witness: a non-blocked run exposes the body to the client; a
blocked run withholds it and populates `review_body` with the persisted
body. -/
theorem C5_blocked_output_witness :
    (payloadOf c5RunPass).blocked = false ∧
    (payloadOf c5RunPass).clientBody = (payloadOf c5RunPass).dbBody ∧
    (payloadOf c5RunPass).reviewBody = [] ∧
    (payloadOf c5RunBlocked).blocked = true ∧
    (payloadOf c5RunBlocked).clientBody = [] ∧
    (payloadOf c5RunBlocked).reviewBody = (payloadOf c5RunBlocked).dbBody ∧
    (payloadOf c5RunBlocked).dbBody ≠ [] := by
  have h1 := C5_blocked_output envW "news" "long_article" (JsonField.str "standard")
    [⟨"T", "https://a.example", "S"⟩] false [] (finOracleW swarmCallsPassW "# Title\nBody.")
    (payloadOf c5RunPass) rfl
  have h2 := C5_blocked_output envW "news" "long_article" (JsonField.str "standard")
    [⟨"T", "https://a.example", "S"⟩] false [] (finOracleW swarmCallsFactFailW "# Title\nBody.")
    (payloadOf c5RunBlocked) rfl
  exact ⟨rfl, (h1.2.2 rfl).1, (h1.2.2 rfl).2, rfl, (h2.2.1 rfl).1, (h2.2.1 rfl).2, h2.1⟩

/-- C9 amended: when the internet fallback was used, every successful
final body contains a Content Source Notice section AT LEAST once (the
notice is appended whenever the draft lacks one, after generation and
after each rewrite, and survives trimming and the prepended generation
notice). -/
theorem C9_notice_at_least_once (env : RouteEnv) (mode ct : String) (humRaw : JsonField)
    (cits : List Citation) (warns : List String) (o : FinalizeOracle) (p : SuccessPayload)
    (h : (finalizeStage env mode ct humRaw cits true warns o).1 = .ok p) :
    p.internetFallbackUsed = true ∧
    1 ≤ countNoticeMatches p.dbBody ∧
    (p.blocked = false → 1 ≤ countNoticeMatches p.clientBody) ∧
    (p.blocked = true → 1 ≤ countNoticeMatches p.reviewBody) := by
  have hp := finalizeStage_ok_inv h
  subst hp
  obtain ⟨draft, hdraft⟩ := finalizeBody_assembled env ct humRaw cits true o
  have htest : testContentSourceNotice (finalizeBody env ct humRaw cits true o).1 = true := by
    rw [hdraft]
    unfold assembleBody
    exact testNotice_appendNotice _ _
  have htrim := testNotice_trim htest
  have hcount := one_le_countNotice_of_test htrim
  unfold finalizeDecision
  simp only []
  refine ⟨by trivial, ?_, ?_, ?_⟩
  · exact le_trans hcount (countNotice_prepend _ _)
  · intro hb
    simp [hb]
    exact le_trans hcount (countNotice_prepend _ _)
  · intro hb
    simp [hb]
    exact le_trans hcount (countNotice_prepend _ _)

/-- An internet-fallback run of the finalize stage with a clean draft. -/
def c9RunOk : RouteOutcome :=
  (finalizeStage envW "general" "long_article" (JsonField.str "standard")
    [⟨"T", "https://a.example", "S"⟩] true []
    (finOracleW swarmCallsPassW "# Title\nBody.")).1

set_option maxRecDepth 40000 in
/-- C9 witness: the internet-fallback run contains the notice at least
once in the persisted and the client body. -/
theorem C9_notice_witness :
    (payloadOf c9RunOk).internetFallbackUsed = true ∧
    1 ≤ countNoticeMatches (payloadOf c9RunOk).dbBody ∧
    1 ≤ countNoticeMatches (payloadOf c9RunOk).clientBody := by
  have h := C9_notice_at_least_once envW "general" "long_article" (JsonField.str "standard")
    [⟨"T", "https://a.example", "S"⟩] [] (finOracleW swarmCallsPassW "# Title\nBody.")
    (payloadOf c9RunOk) rfl
  exact ⟨h.1, h.2.1, h.2.2.1 rfl⟩

/-- A model draft that already carries TWO Content Source Notice
sections. -/
def c9TwoNoticeDraft : String :=
  "Intro paragraph.\n\n## Content Source Notice\nFirst copy.\n\n## Content Source Notice\nSecond copy."

/-- The internet-fallback run over the two-notice draft. -/
def c9RunTwo : RouteOutcome :=
  (finalizeStage envW "general" "long_article" (JsonField.str "standard")
    [⟨"T", "https://a.example", "S"⟩] true []
    (finOracleW swarmCallsPassW c9TwoNoticeDraft)).1

set_option maxRecDepth 40000 in
/-- C9 counterexample: when the model itself emits two notice sections,
the regex test passes, nothing is appended, and the final body contains
the notice TWICE — refuting "exactly once, whatever text the model
produced". -/
theorem C9_notice_counterexample :
    (payloadOf c9RunTwo).internetFallbackUsed = true ∧
    countNoticeMatches (payloadOf c9RunTwo).dbBody = 2 := by
  exact ⟨rfl, rfl⟩

theorem privEdgeState_ifu (o : RetrievalOracle) :
    (privEdgeState o).internetFallbackUsed = false := by
  unfold privEdgeState
  rcases o.privEdge with e | (_ | chunks) <;> rfl

theorem privTextStep_ifu (o : RetrievalOracle) (s : RetrievalState) :
    (privTextStep o s).1.internetFallbackUsed = s.internetFallbackUsed := by
  unfold privTextStep
  by_cases hcx : s.context = ""
  · rw [if_pos hcx]
    rcases hpt : o.privText with e | fallbackChunks
    · rfl
    · by_cases hf : fallbackChunks = []
      · simp [hf]
      · simp [hf]
  · rw [if_neg hcx]

theorem privTextStep_trace {o : RetrievalOracle} {s : RetrievalState} {c : ExtCall}
    (hc : c ∈ (privTextStep o s).2) : c = ExtCall.privateTextSearch := by
  unfold privTextStep at hc
  by_cases hcx : s.context = ""
  · rw [if_pos hcx] at hc
    rcases hpt : o.privText with e | fallbackChunks <;> rw [hpt] at hc
    · simpa using hc
    · by_cases hf : fallbackChunks = []
      · simp [hf] at hc
        exact hc
      · simp [hf] at hc
        exact hc
  · rw [if_neg hcx] at hc
    simp at hc

theorem privSopStep_ifu (s : RetrievalState) :
    (privSopStep s).internetFallbackUsed = s.internetFallbackUsed := by
  unfold privSopStep
  split <;> rfl

theorem resolveRetrieval_private_ifu (o : RetrievalOracle) :
    (resolveRetrieval "private" o).1.internetFallbackUsed = false := by
  show (privSopStep (privTextStep o (privEdgeState o)).1).internetFallbackUsed = false
  rw [privSopStep_ifu, privTextStep_ifu, privEdgeState_ifu]

theorem resolveRetrieval_private_trace (o : RetrievalOracle) :
    (resolveRetrieval "private" o).2 =
      ExtCall.queryDocs "private" :: (privTextStep o (privEdgeState o)).2 := rfl

/-- C2: in private mode the route never reaches the internet fallback or
the secondary collection boost (its calls cannot occur and the fallback
flag stays false, also in any successful payload), and when the resolved
citation list is empty after retrieval plus the private text-search
fallback, the route answers HTTP 422 with code `no_sources` and never
issues a generation call. -/
theorem C2_private_no_sources (env : RouteEnv) (ctRaw humRaw : JsonField) (o : RouteOracle) :
    ExtCall.internetSearch ∉ (generateRoute env "private" ctRaw humRaw o).2 ∧
    ExtCall.collectDocs ∉ (generateRoute env "private" ctRaw humRaw o).2 ∧
    (resolveRetrieval "private" o.retrieval).1.internetFallbackUsed = false ∧
    (∀ p, (generateRoute env "private" ctRaw humRaw o).1 = .ok p →
      p.internetFallbackUsed = false) ∧
    ((resolveRetrieval "private" o.retrieval).1.citations = [] →
      (generateRoute env "private" ctRaw humRaw o).1 = .httpError 422 "no_sources" ∧
      ∀ m, ExtCall.generationCall m ∉ (generateRoute env "private" ctRaw humRaw o).2) := by
  have hretr : ∀ c ∈ (resolveRetrieval "private" o.retrieval).2,
      c = ExtCall.queryDocs "private" ∨ c = ExtCall.privateTextSearch := by
    intro c hc
    rw [resolveRetrieval_private_trace] at hc
    rcases List.mem_cons.mp hc with h | h
    · exact Or.inl h
    · exact Or.inr (privTextStep_trace h)
  by_cases hcit : (resolveRetrieval "private" o.retrieval).1.citations = []
  · have hroute : generateRoute env "private" ctRaw humRaw o =
        (.httpError 422 "no_sources", (resolveRetrieval "private" o.retrieval).2) := by
      unfold generateRoute
      simp only []
      rw [if_pos (by simp [hcit])]
    refine ⟨?_, ?_, resolveRetrieval_private_ifu o.retrieval, ?_, ?_⟩
    · rw [hroute]
      intro hmem
      rcases hretr _ hmem with h | h <;> simp at h
    · rw [hroute]
      intro hmem
      rcases hretr _ hmem with h | h <;> simp at h
    · intro p hp
      rw [hroute] at hp
      simp at hp
    · intro _
      refine ⟨by rw [hroute], ?_⟩
      intro m hmem
      rw [hroute] at hmem
      rcases hretr _ hmem with h | h <;> simp at h
  · have hroute : generateRoute env "private" ctRaw humRaw o =
        ((finalizeStage env "private" (contentTypeTextOf ctRaw) humRaw
            (resolveRetrieval "private" o.retrieval).1.citations
            (resolveRetrieval "private" o.retrieval).1.internetFallbackUsed
            (resolveRetrieval "private" o.retrieval).1.warnings o.finalize).1,
         (resolveRetrieval "private" o.retrieval).2 ++
           (finalizeStage env "private" (contentTypeTextOf ctRaw) humRaw
             (resolveRetrieval "private" o.retrieval).1.citations
             (resolveRetrieval "private" o.retrieval).1.internetFallbackUsed
             (resolveRetrieval "private" o.retrieval).1.warnings o.finalize).2) := by
      unfold generateRoute
      simp only []
      rw [if_neg (by simp [hcit]), if_neg hcit]
    refine ⟨?_, ?_, resolveRetrieval_private_ifu o.retrieval, ?_, ?_⟩
    · rw [hroute]
      intro hmem
      rcases List.mem_append.mp hmem with h | h
      · rcases hretr _ h with h2 | h2 <;> simp at h2
      · rcases finalizeStage_trace h with ⟨m2, h2⟩ | ⟨s2, h2⟩ | h2 <;> simp at h2
    · rw [hroute]
      intro hmem
      rcases List.mem_append.mp hmem with h | h
      · rcases hretr _ h with h2 | h2 <;> simp at h2
      · rcases finalizeStage_trace h with ⟨m2, h2⟩ | ⟨s2, h2⟩ | h2 <;> simp at h2
    · intro p hp
      rw [hroute] at hp
      simp only [] at hp
      have hinv := finalizeStage_ok_inv hp
      subst hinv
      exact resolveRetrieval_private_ifu o.retrieval
    · intro h
      exact absurd h hcit

/-- A retrieval oracle whose private index and private text search both
come back empty. -/
def retrievalOracleEmptyW : RetrievalOracle :=
  { privEdge := .ok (some [])
    privText := .ok []
    pubEdge := .ok none
    verifiedEdgeDocs := []
    generalPrivData := none
    pubText := .ok []
    verifiedTextDocs := []
    boost := none
    internetDocs := .ok []
    parseURL := fun _ => none
    hostnameOf := fun _ => "" }

/-- The route oracle for the empty-private-retrieval run. -/
def routeOracleW : RouteOracle :=
  { retrieval := retrievalOracleEmptyW
    finalize := finOracleW swarmCallsPassW "# Title\nBody." }

/-- C2 witness: the empty private run answers 422 `no_sources` and makes
no generation call. -/
theorem C2_private_no_sources_witness :
    (generateRoute envW "private" JsonField.missing JsonField.missing routeOracleW).1 =
      .httpError 422 "no_sources" ∧
    ∀ m, ExtCall.generationCall m ∉
      (generateRoute envW "private" JsonField.missing JsonField.missing routeOracleW).2 := by
  have h := (C2_private_no_sources envW JsonField.missing JsonField.missing
    routeOracleW).2.2.2.2 rfl
  exact ⟨h.1, h.2⟩

end PharmaGen
